import Mathlib

/-!
Verification development for the personal-sysadmin core: the relational
reasoning engine (terms, unification, clause queries), the crystallized
rules engine (condition evaluation, execution, crystallization), and the
rule lifecycle manager (health assessment, tolerance, CVE obsolescence).

The Rust source is shallowly embedded:
* machine integers (`u32`) become `Nat` (no arithmetic here overflows);
* `f32`/`f64` confidences and thresholds become `ℚ` (exact rationals);
* `HashMap<String, Term>` substitutions become association lists with
  first-match lookup (insertion conses in front, matching the overwrite
  semantics of `HashMap::insert`);
* possibly non-terminating recursion (`walk`, `unify`, `query`) is given
  explicit fuel; a dedicated `diverge`-style result marks fuel exhaustion,
  which corresponds to non-termination of the original recursion;
* external effects (process probes, the filesystem, clocks) are passed in
  as explicit oracle parameters.
-/

namespace PSA

/-- Logical terms of the reasoning engine (`src/reasoning/mod.rs`, `enum Term`):
atoms, variables, compound terms, and term lists. -/
inductive Term where
  | atom (s : String)
  | var (v : String)
  | compound (f : String) (args : List Term)
  | list (elems : List Term)

mutual

/-- Structural decidable equality for `Term` (the Rust `#[derive(PartialEq)]`). -/
def Term.decEq : (a b : Term) → Decidable (a = b)
  | .atom a, .atom b =>
    if h : a = b then .isTrue (by rw [h]) else .isFalse (fun hh => h (Term.atom.inj hh))
  | .var a, .var b =>
    if h : a = b then .isTrue (by rw [h]) else .isFalse (fun hh => h (Term.var.inj hh))
  | .compound f as, .compound g bs =>
    if h : f = g then
      match Term.decEqList as bs with
      | .isTrue h2 => .isTrue (by rw [h, h2])
      | .isFalse h2 => .isFalse (fun hh => h2 (Term.compound.inj hh).2)
    else .isFalse (fun hh => h (Term.compound.inj hh).1)
  | .list as, .list bs =>
    match Term.decEqList as bs with
    | .isTrue h2 => .isTrue (by rw [h2])
    | .isFalse h2 => .isFalse (fun hh => h2 (Term.list.inj hh))
  | .atom _, .var _ => .isFalse (fun h => Term.noConfusion h)
  | .atom _, .compound _ _ => .isFalse (fun h => Term.noConfusion h)
  | .atom _, .list _ => .isFalse (fun h => Term.noConfusion h)
  | .var _, .atom _ => .isFalse (fun h => Term.noConfusion h)
  | .var _, .compound _ _ => .isFalse (fun h => Term.noConfusion h)
  | .var _, .list _ => .isFalse (fun h => Term.noConfusion h)
  | .compound _ _, .atom _ => .isFalse (fun h => Term.noConfusion h)
  | .compound _ _, .var _ => .isFalse (fun h => Term.noConfusion h)
  | .compound _ _, .list _ => .isFalse (fun h => Term.noConfusion h)
  | .list _, .atom _ => .isFalse (fun h => Term.noConfusion h)
  | .list _, .var _ => .isFalse (fun h => Term.noConfusion h)
  | .list _, .compound _ _ => .isFalse (fun h => Term.noConfusion h)

/-- Decidable equality for lists of terms. -/
def Term.decEqList : (as bs : List Term) → Decidable (as = bs)
  | [], [] => .isTrue rfl
  | [], _ :: _ => .isFalse (fun h => List.noConfusion h)
  | _ :: _, [] => .isFalse (fun h => List.noConfusion h)
  | a :: as, b :: bs =>
    match Term.decEq a b, Term.decEqList as bs with
    | .isTrue h1, .isTrue h2 => .isTrue (by rw [h1, h2])
    | .isFalse h1, _ => .isFalse (fun h => h1 (by injection h))
    | _, .isFalse h2 => .isFalse (fun h => h2 (by injection h))

end

instance : DecidableEq Term := Term.decEq

/-- A substitution: variable names mapped to terms.  The Rust code uses a
`HashMap<String, Term>`; we model it as an association list where insertion
conses in front and lookup takes the first match (so a later insert shadows
an earlier one, exactly like `HashMap::insert`). -/
abbrev Subst := List (String × Term)

/-- First-match lookup in a substitution. -/
def lookupSubst : Subst → String → Option Term
  | [], _ => none
  | (k, t) :: rest, v => if k = v then some t else lookupSubst rest v

/-- Fueled variable resolution (`walk` in `src/reasoning/mod.rs`): follow the
binding of a variable through the substitution until an unbound variable or a
non-variable term is reached.  The Rust recursion has no termination guarantee
for cyclic substitutions; fuel `s.length + 1` is enough for every substitution
the engine actually builds (shown below via `WFS`). -/
def walkF : Nat → Subst → Term → Term
  | 0, _, t => t
  | Nat.succ n, s, Term.var v =>
    match lookupSubst s v with
    | some t => walkF n s t
    | none => Term.var v
  | Nat.succ _, _, t => t

/-- `walk` with the canonical fuel. -/
def walk (s : Subst) (t : Term) : Term := walkF (s.length + 1) s t

/-- Result of a fueled unification: `diverge` marks fuel exhaustion (the Rust
recursion would not return), `fail` is Rust `None`, `ok s` is Rust `Some(s)`. -/
inductive URes where
  | diverge
  | fail
  | ok (s : Subst)
  deriving DecidableEq

/-- The left-to-right argument loop of `unify` over the zipped argument
lists (`args1.iter().zip(args2.iter())` in Rust), threading the accumulating
substitution and short-circuiting on the first failure (the `?` operator in
the Rust loop).  Parameterized by the unifier used on each pair. -/
def unifyArgsWith (u : Term → Term → Subst → URes) :
    List (Term × Term) → Subst → URes
  | [], s => .ok s
  | (a, b) :: rest, s =>
    match u a b s with
    | .diverge => .diverge
    | .fail => .fail
    | .ok s' => unifyArgsWith u rest s'

/-- Fueled embedding of `ReasoningEngine::unify` (`src/reasoning/mod.rs`):
walks both terms, then matches exactly the Rust `match` arms in order —
identical variables, variable against any other term (bound with no
occurs-check), equal atoms, compounds with equal functor and arity unified
argument-wise, lists of equal length unified element-wise, all else failing. -/
def unifyF : Nat → Term → Term → Subst → URes
  | 0, _, _, _ => .diverge
  | Nat.succ n, t1, t2, s =>
    match walk s t1, walk s t2 with
    | Term.var v1, Term.var v2 =>
      if v1 = v2 then .ok s else .ok ((v1, Term.var v2) :: s)
    | Term.var v, t => .ok ((v, t) :: s)
    | t, Term.var v => .ok ((v, t) :: s)
    | Term.atom a1, Term.atom a2 => if a1 = a2 then .ok s else .fail
    | Term.compound f1 args1, Term.compound f2 args2 =>
      if f1 = f2 ∧ args1.length = args2.length then
        unifyArgsWith (unifyF n) (args1.zip args2) s
      else .fail
    | Term.list l1, Term.list l2 =>
      if l1.length = l2.length then unifyArgsWith (unifyF n) (l1.zip l2) s
      else .fail
    | _, _ => .fail

/-- Constructor tag of a term, used to state the catch-all failure arm of
`unify` ("no other pairing unifies"). -/
def headTag : Term → Nat
  | .atom _ => 0
  | .var _ => 1
  | .compound _ _ => 2
  | .list _ => 3

/-- `t` is var-resolved with respect to `s`: it is a non-variable term or an
unbound variable, so `walk` leaves it unchanged.  Every term the engine ever
inserts into a substitution has this shape. -/
def Resolved (s : Subst) (t : Term) : Prop :=
  match t with
  | Term.var v => lookupSubst s v = none
  | _ => True

/-- Well-formed substitutions: exactly the substitutions the engine can build
starting from the empty one.  Each new binding binds a previously unbound
variable to a var-resolved term other than itself, so chains are acyclic and
`walk`'s canonical fuel always suffices. -/
inductive WFS : Subst → Prop where
  | nil : WFS []
  | cons (u : String) (t : Term) (s : Subst) :
      WFS s → lookupSubst s u = none → Resolved s t → t ≠ Term.var u →
      WFS ((u, t) :: s)

/-- Mirror relation between the walk-results of two mirrored unification runs:
either both are the same non-variable term, or both are unbound variables
matched by the variable bijection `pi` (with inverse `rho`). -/
def MRel (pi rho : String → String) (s1 s2 : Subst) (r1 r2 : Term) : Prop :=
  (∃ u1 u2, r1 = Term.var u1 ∧ r2 = Term.var u2 ∧ pi u1 = u2 ∧ rho u2 = u1 ∧
    lookupSubst s1 u1 = none ∧ lookupSubst s2 u2 = none) ∨
  (r1 = r2 ∧ ∀ w, r1 ≠ Term.var w)

/-- Simulation invariant between the substitutions of two mirrored
unification runs. -/
def Sim (pi rho : String → String) (s1 s2 : Subst) : Prop :=
  WFS s1 ∧ WFS s2 ∧
    ∀ v, MRel pi rho s1 s2 (walk s1 (Term.var v)) (walk s2 (Term.var v))

/-- Relation between the results of two mirrored unification runs: they
diverge together, fail together, or succeed together with simulated
substitutions. -/
def SimRes (r1 r2 : URes) : Prop :=
  (r1 = .diverge ∧ r2 = .diverge) ∨ (r1 = .fail ∧ r2 = .fail) ∨
  (∃ s1 s2 pi rho, r1 = .ok s1 ∧ r2 = .ok s2 ∧ Sim pi rho s1 s2)

/-- Whether a unification result is a success (`Some(substitution)` in Rust). -/
def URes.isOk : URes → Bool
  | .ok _ => true
  | _ => false

/-! ### Reasoning engine: clause store and queries (`src/reasoning/mod.rs`) -/

/-- A fact or rule of the knowledge base (`struct Clause`): head term, body
terms (empty body means a fact) and an `f32` confidence, modelled exactly
in `ℚ`. -/
structure Clause where
  head : Term
  body : List Term
  confidence : ℚ

/-- The reasoning engine: an ordered clause store (`struct ReasoningEngine`). -/
structure ReasoningEngine where
  clauses : List Clause

/-- `extend` of the accumulating substitution by a recursive solution
(`current_subst.extend(new_subst)`): the new bindings shadow current ones,
like `HashMap::extend`. -/
def extendSubst (current new : Subst) : Subst := new ++ current

/-- Stable insertion (descending by confidence) into an already sorted list:
an element is placed after all earlier elements with greater-or-equal
confidence, so store order is kept among ties. -/
def insDesc (x : Subst × ℚ) : List (Subst × ℚ) → List (Subst × ℚ)
  | [] => [x]
  | y :: ys => if x.2 ≤ y.2 then y :: insDesc x ys else x :: y :: ys

/-- The stable descending sort of `query`'s collected results
(`results.sort_by(|a, b| b.1.partial_cmp(&a.1) ...)`; Rust `sort_by` is
stable, and on `ℚ` the `partial_cmp` fallback for NaN never fires). -/
def sortByConfDesc (l : List (Subst × ℚ)) : List (Subst × ℚ) :=
  l.foldl (fun acc x => insDesc x acc) []

/-- The body-proving loop of `prove_body`: each body goal is resolved under
the accumulating substitution and handed to the (recursive) query `q`,
taking only the first solution; any goal without solutions fails the body.
Result: `none` = the recursion exhausted its fuel (Rust would not return);
`some none` = Rust `None`; `some (some (subst, confidence))` = Rust `Some`. -/
def proveBodyWith (q : Term → Option (List (Subst × ℚ))) :
    List Term → Subst → Option (Option (Subst × ℚ))
  | [], s => some (some (s, 1))
  | g :: gs, s =>
    match q (walk s g) with
    | none => none
    | some solutions =>
      match solutions.head? with
      | none => some none
      | some (s', conf) =>
        match proveBodyWith q gs (extendSubst s s') with
        | none => none
        | some none => some none
        | some (some (sf, confRest)) => some (some (sf, conf * confRest))

/-- The clause loop of `query`: each clause whose head unifies with the goal
under the empty substitution contributes one result — its confidence for a
fact, its confidence times the proven body confidence for a rule.  `none`
marks fuel exhaustion of the underlying recursion. -/
def collectResults (uFuel : Nat) (q : Term → Option (List (Subst × ℚ)))
    (goal : Term) : List Clause → Option (List (Subst × ℚ))
  | [] => some []
  | c :: cs =>
    match unifyF uFuel goal c.head [] with
    | .diverge => none
    | .fail => collectResults uFuel q goal cs
    | .ok s =>
      if c.body.isEmpty then
        (collectResults uFuel q goal cs).map (fun rest => (s, c.confidence) :: rest)
      else
        match proveBodyWith q c.body s with
        | none => none
        | some none => collectResults uFuel q goal cs
        | some (some (sf, bodyConf)) =>
          (collectResults uFuel q goal cs).map
            (fun rest => (sf, c.confidence * bodyConf) :: rest)

/-- Fueled embedding of `ReasoningEngine::query`: iterate all clauses in
store order, collect one result per matching clause, and sort the results
by descending confidence (stably, so ties keep store order).  `none` marks
fuel exhaustion. -/
def queryF : Nat → ReasoningEngine → Term → Option (List (Subst × ℚ))
  | 0, _, _ => none
  | Nat.succ n, eng, goal =>
    match collectResults n (queryF n eng) goal eng.clauses with
    | none => none
    | some results => some (sortByConfDesc results)

/-! ### Rules engine (`src/rules/mod.rs`) -/

/-- A condition that must be true for a rule to apply (`enum Condition`). -/
inductive Condition where
  | processRunning (name : String)
  | serviceState (name state : String)
  | fileExists (path : String)
  | fileContains (path pattern : String)
  | metricThreshold (metric op : String) (value : ℚ)
  | portOpen (port : Nat) (protocol : String)
  | packageInstalled (name : String)
  | moduleLoaded (name : String)
  | shellCheck (command : String)
  | all (conditions : List Condition)
  | any (conditions : List Condition)
  | not (condition : Condition)

/-- An action to take when conditions are met (`enum Action`). -/
inductive Action where
  | shell (command : String) («sudo» : Bool)
  | restartService (name : String)
  | enableService (name : String)
  | writeFile (path content : String) (mode : Option String)
  | loadModule (name : String) (options : Option String)
  | installPackage (name : String)
  | log (level message : String)
  | notify (title body : String)
  | escalate (reason : String)
  deriving DecidableEq

/-- Where a rule originated (`enum RuleSource`). -/
inductive RuleSource where
  | crystallized (solution_id : String) (confidence : ℚ)
  | forum (url thread_title : String)
  | mesh (peer_id peer_name : String)
  | manual (author : String)
  | imported (source : String)

/-- One step of the decision chain (`struct DecisionStep`). -/
structure DecisionStep where
  timestamp : String
  description : String
  confidence_before : ℚ
  confidence_after : ℚ
  reason : String

/-- One version-history entry (`struct RuleVersion`). -/
structure RuleVersion where
  version : String
  timestamp : String
  author : String
  message : String
  diff_summary : String

/-- Full provenance of a rule (`struct Provenance`). -/
structure Provenance where
  source : RuleSource
  original_problem : String
  solution_id : Option String
  created_at : String
  created_by : String
  decision_path : List DecisionStep
  history : List RuleVersion

/-- Post-crystallization statistics (`struct RuleStats`); timestamps are the
RFC 3339 strings the code stores. -/
structure RuleStats where
  applied_count : Nat
  success_count : Nat
  failure_count : Nat
  escalation_count : Nat
  last_applied : Option String
  average_duration_ms : Option ℚ

/-- A crystallized rule (`struct Rule`). -/
structure Rule where
  id : String
  name : String
  version : String
  when : List Condition
  «then» : List Action
  provenance : Provenance
  stats : RuleStats
  enabled : Bool
  tags : List String

/-- The read-only system probes `evaluate_condition` shells out to, passed
explicitly: `none` models a probe the code cannot run (process spawn error,
unreadable file or missing `/proc/modules`); `some` carries the observed
outcome (exit status for `pgrep`/`sh -c`, raw stdout for
`systemctl is-active`, whose trimming happens in the evaluator;
file content for reads). -/
structure ProbeEnv where
  pgrep : String → Option Bool
  serviceActive : String → Option String
  fileExists : String → Bool
  readFile : String → Option String
  procModules : Option String
  shell : String → Option Bool

/-- Characters allowed by `validate_pattern` (`src/validation.rs`):
ASCII alphanumerics, dash, underscore, dot and the safe glob characters. -/
def patternCharOk (c : Char) : Bool :=
  c.isAlphanum || c = '-' || c = '_' || c = '.' || c = '*' || c = '?'

/-- `validate_pattern` (`src/validation.rs`): process name patterns. -/
def validate_pattern (pattern : String) : Except String String :=
  if pattern.isEmpty then .error "Empty pattern not allowed"
  else if pattern.toList.all patternCharOk then .ok pattern
  else .error "Pattern contains invalid character"

/-- Characters allowed by `validate_service_name` (`src/validation.rs`). -/
def serviceCharOk (c : Char) : Bool :=
  c.isAlphanum || c = '-' || c = '_' || c = '.' || c = '@'

/-- `validate_service_name` (`src/validation.rs`): systemd unit names. -/
def validate_service_name (name : String) : Except String String :=
  if name.isEmpty then .error "Empty service name not allowed"
  else if name.toList.all serviceCharOk then .ok name
  else .error "Service name contains invalid character"

/-- Rust `str::contains` on a literal pattern: some tail of the haystack
starts with the needle. -/
def strContains (hay pat : String) : Bool :=
  hay.toList.tails.any (fun t => pat.toList.isPrefixOf t)

/-- Rust `str::eq_ignore_ascii_case`. -/
def eqIgnoreCase (a b : String) : Bool := a.toLower == b.toLower

mutual

/-- Embedding of `RulesEngine::evaluate_condition` (`src/rules/mod.rs`):
every probe failure — invalid pattern or service name, spawn error,
unreadable file — evaluates to `false` (`unwrap_or(false)`), as does every
not-yet-implemented variant (`MetricThreshold`, `PortOpen`,
`PackageInstalled`); composite `All`/`Any`/`Not` recurse.  The `_context`
parameter of the source is unused there and omitted here. -/
def evaluate_condition (env : ProbeEnv) : Condition → Bool
  | .processRunning name =>
    match validate_pattern name with
    | .error _ => false
    | .ok safe_name => (env.pgrep safe_name).getD false
  | .serviceState name state =>
    match validate_service_name name with
    | .error _ => false
    | .ok safe_name =>
      match env.serviceActive safe_name with
      | none => false
      | some out => eqIgnoreCase out.trim state
  | .fileExists path => env.fileExists path
  | .fileContains path pattern =>
    match env.readFile path with
    | none => false
    | some content => strContains content pattern
  | .metricThreshold _ _ _ => false
  | .portOpen _ _ => false
  | .packageInstalled _ => false
  | .moduleLoaded name =>
    match env.procModules with
    | none => false
    | some content => (content.splitOn "\n").any (fun l => l.startsWith name)
  | .shellCheck command => (env.shell command).getD false
  | .all conditions => evalCondAll env conditions
  | .any conditions => evalCondAny env conditions
  | .not condition => !evaluate_condition env condition

/-- `conditions.iter().all(...)` for the `All` composite. -/
def evalCondAll (env : ProbeEnv) : List Condition → Bool
  | [] => true
  | c :: cs => evaluate_condition env c && evalCondAll env cs

/-- `conditions.iter().any(...)` for the `Any` composite. -/
def evalCondAny (env : ProbeEnv) : List Condition → Bool
  | [] => false
  | c :: cs => evaluate_condition env c || evalCondAny env cs

end

/-- `RulesEngine::evaluate_conditions`: logical AND across a rule's
top-level `when` list. -/
def evaluate_conditions (env : ProbeEnv) (conditions : List Condition) : Bool :=
  conditions.all (evaluate_condition env)

/-- Stable insertion (descending by `key`) used to model Rust's stable
`sort_by` on a descending key. -/
def insDescBy {α : Type} (key : α → Nat) (x : α) : List α → List α
  | [] => [x]
  | y :: ys => if key x ≤ key y then y :: insDescBy key x ys else x :: y :: ys

/-- Stable descending sort by a `Nat` key. -/
def sortDescBy {α : Type} (key : α → Nat) (l : List α) : List α :=
  l.foldl (fun acc x => insDescBy key x acc) []

/-- Embedding of `RulesEngine::find_matching`: keep the enabled rules whose
whole `when` list evaluates true, then sort by descending condition count
(more specific first; Rust `sort_by` is stable, so ties keep discovery
order). -/
def find_matching (env : ProbeEnv) (rules : List Rule) : List Rule :=
  sortDescBy (fun r => r.when.length)
    (rules.filter (fun r => r.enabled && evaluate_conditions env r.when))

/-- Result of executing a rule (`struct ExecutionResult`); the wall-clock
`duration_ms` is measured from the ambient clock in the source and is not
modelled. -/
structure ExecutionResult where
  success : Bool
  outputs : List String
  error : Option String
  deriving DecidableEq

/-- The default `ExecutionResult`: success until an action fails. -/
def ExecutionResult.init : ExecutionResult :=
  { success := true, outputs := [], error := none }

/-- The action loop of `RulesEngine::execute`: actions run strictly in
order; a successful action appends its output; the first failure records
the error, marks the run failed and breaks out of the loop.  The oracle
models `execute_action`'s external effects (`Ok(stdout)` or `Err(e)`). -/
def runActions (oracle : Action → Except String String) :
    List Action → ExecutionResult → ExecutionResult
  | [], acc => acc
  | a :: rest, acc =>
    match oracle a with
    | .ok out => runActions oracle rest { acc with outputs := acc.outputs ++ [out] }
    | .error e => { acc with success := false, error := some e }

/-- Update the first rule with the given id (`self.rules.iter_mut().find`). -/
def updateFirstRule (rule_id : String) (f : Rule → Rule) : List Rule → List Rule
  | [] => []
  | r :: rs => if r.id = rule_id then f r :: rs else r :: updateFirstRule rule_id f rs

/-- The statistics update at the end of `execute`: `applied_count += 1`,
then exactly one of `success_count`/`failure_count` += 1, and
`last_applied = Some(now)`. -/
def bumpStats (now : String) (success : Bool) (st : RuleStats) : RuleStats :=
  { st with
    applied_count := st.applied_count + 1
    success_count := if success then st.success_count + 1 else st.success_count
    failure_count := if success then st.failure_count else st.failure_count + 1
    last_applied := some now }

/-- Embedding of `RulesEngine::execute`: look up the rule by id (`none`
models the Rust `Err("Rule not found")`), run its `then` actions in order
with first-failure abort, then update the statistics of the first rule with
that id exactly once.  `now` is the ambient clock reading. -/
def execute (oracle : Action → Except String String) (now : String)
    (rules : List Rule) (rule_id : String) : Option (ExecutionResult × List Rule) :=
  match rules.find? (fun r => r.id = rule_id) with
  | none => none
  | some rule =>
    let result := runActions oracle rule.«then» ExecutionResult.init
    some (result,
      updateFirstRule rule_id
        (fun r => { r with stats := bumpStats now result.success r.stats }) rules)

/-- Where a stored solution came from (`storage::SolutionSource`). -/
inductive SolutionSource where
  | localSource
  | mesh (peer : String)
  | forum (url : String)
  | manual

/-- A stored solution (`storage::Solution`); timestamps as strings. -/
structure Solution where
  id : String
  category : String
  problem : String
  solution : String
  commands : List String
  tags : List String
  success_count : Nat
  failure_count : Nat
  source : SolutionSource
  created_at : String
  updated_at : String

/-- `CRYSTALLIZATION_THRESHOLD` (`src/rules/mod.rs`). -/
def CRYSTALLIZATION_THRESHOLD : Nat := 5

/-- Embedding of `should_crystallize` (`src/rules/mod.rs`): success count
at least the threshold and failure count below half the success count
(integer division, as in `u32`). -/
def should_crystallize (solution : Solution) : Bool :=
  CRYSTALLIZATION_THRESHOLD ≤ solution.success_count &&
    solution.failure_count < solution.success_count / 2

/-- The rule value built by `RulesEngine::crystallize`: fresh id (a UUID in
the source, supplied here), name derived from the problem, version 1.0.0,
crystallized provenance with one decision step and one history entry,
default (all-zero) statistics, enabled, tagged like the solution.  The
file write and git commit are external effects, not modelled. -/
def crystallize (now rule_id : String) (solution : Solution)
    (conditions : List Condition) (actions : List Action) : Rule :=
  let conf : ℚ := (solution.success_count : ℚ) /
    ((solution.success_count : ℚ) + (solution.failure_count : ℚ) + 1)
  { id := rule_id
    name := "Auto: " ++ solution.problem
    version := "1.0.0"
    when := conditions
    «then» := actions
    provenance :=
      { source := RuleSource.crystallized solution.id conf
        original_problem := solution.problem
        solution_id := some solution.id
        created_at := now
        created_by := "psa-auto"
        decision_path :=
          [{ timestamp := now
             description := "Crystallized from proven solution"
             confidence_before := 0
             confidence_after := conf
             reason := "Solution proven with " ++ toString solution.success_count ++
               " successes, " ++ toString solution.failure_count ++ " failures" }]
        history :=
          [{ version := "1.0.0", timestamp := now, author := "psa-auto"
             message := "Initial crystallization"
             diff_summary := "Created from solution" }] }
    stats :=
      { applied_count := 0, success_count := 0, failure_count := 0
        escalation_count := 0, last_applied := none, average_duration_ms := none }
    enabled := true
    tags := solution.tags }

/-- `RulesEngine::add_rule`: push the rule at the end of the store. -/
def add_rule (rules : List Rule) (r : Rule) : List Rule := rules ++ [r]

/-! ### Lifecycle manager (`src/rules/lifecycle.rs`) -/

/-- Tolerance configuration (`struct ToleranceConfig`); the `f32` rates are
modelled in `ℚ`. -/
structure ToleranceConfig where
  min_success_rate : ℚ
  min_samples : Nat
  variance_threshold : ℚ
  failure_review_threshold : Nat
  rate_window_secs : Nat

/-- The `Default` impl of `ToleranceConfig`: 80% success, 10 samples,
5% variance, 3 failures, one-week window. -/
def defaultTolerance : ToleranceConfig :=
  { min_success_rate := 4/5
    min_samples := 10
    variance_threshold := 1/20
    failure_review_threshold := 3
    rate_window_secs := 604800 }

/-- Rule health status (`enum RuleHealth`). -/
inductive RuleHealth where
  | healthy
  | degrading (current_rate trend : ℚ)
  | needsReview (reason : String)
  | possiblyObsolete (reason : String)
  | obsolete (reason retired_at : String)
  | probationary (applications required : Nat)
  deriving DecidableEq

/-- Embedding of `LifecycleManager::assess_health`: the decision ladder over
a rule's statistics.  `parseAge` models `chrono`: for a stored
`last_applied` string it returns the age in seconds relative to now when the
string parses, `none` otherwise.  (The healthy-result cache write is an
internal optimization with no effect on the returned value.) -/
def assess_health (tol : ToleranceConfig) (parseAge : String → Option Int)
    (stats : RuleStats) : RuleHealth :=
  if stats.applied_count < tol.min_samples then
    RuleHealth.probationary stats.applied_count tol.min_samples
  else
    let success_rate : ℚ := (stats.success_count : ℚ) / (stats.applied_count : ℚ)
    if tol.failure_review_threshold ≤ stats.failure_count ∧
        (3 : ℚ)/10 < (stats.failure_count : ℚ) / (stats.applied_count : ℚ) then
      RuleHealth.needsReview ("High failure rate: " ++ toString stats.failure_count ++
        " failures out of " ++ toString stats.applied_count ++ " applications")
    else if stats.success_count / 2 < stats.escalation_count then
      RuleHealth.needsReview ("High escalation rate: " ++
        toString stats.escalation_count ++ " escalations")
    else
      let rest : RuleHealth :=
        if success_rate < tol.min_success_rate then
          RuleHealth.degrading success_rate (-(1/10))
        else RuleHealth.healthy
      match stats.last_applied with
      | some last =>
        match parseAge last with
        | some age =>
          if (tol.rate_window_secs : Int) * 4 < age then
            RuleHealth.possiblyObsolete ("No applications in " ++
              toString (age / 86400) ++ " days")
          else rest
        | none => rest
      | none => rest

/-- `count_condition_differences`: only a length difference counts
(`a.len().abs_diff(b.len())`, else 0). -/
def count_condition_differences (a b : List Condition) : Nat :=
  if a.length = b.length then 0 else max a.length b.length - min a.length b.length

/-- `count_action_differences`: only a length difference counts. -/
def count_action_differences (a b : List Action) : Nat :=
  if a.length = b.length then 0 else max a.length b.length - min a.length b.length

/-- Embedding of `LifecycleManager::within_tolerance`: the structural
difference count over the existing rule's total element count, compared with
the variance threshold; an element-free existing rule is within tolerance
iff the proposal adds nothing. -/
def within_tolerance (tol : ToleranceConfig) (existing : Rule)
    (proposed_conditions : List Condition) (proposed_actions : List Action) : Bool :=
  let condition_diff := count_condition_differences existing.when proposed_conditions
  let action_diff := count_action_differences existing.«then» proposed_actions
  let total_elements := existing.when.length + existing.«then».length
  let total_diff := condition_diff + action_diff
  if total_elements = 0 then decide (total_diff = 0)
  else decide ((total_diff : ℚ) / (total_elements : ℚ) ≤ tol.variance_threshold)

/-- CVE tracking entry (`struct CveStatus`). -/
structure CveStatus where
  id : String
  affected_packages : List String
  fixed_in : Option String
  patched_locally : Bool
  related_rule_ids : List String
  deriving DecidableEq

/-- Reasons a rule might become obsolete (`enum ObsolescenceReason`). -/
inductive ObsolescenceReason where
  | cveFixed (cve_id fixed_version : String)
  | packageUpdated (package old_version new_version : String)
  | conditionInvalid (condition : String)
  | superseded (new_rule_id : String)
  | manualDeprecation (reason author : String)
  | noRecentActivity (last_applied : String)
  deriving DecidableEq

/-- The scan over the CVE registry inside `check_cve_obsolescence`: the first
registered CVE id contained in the problem text whose status has `fixed_in`
set wins (the Rust `HashMap` iterates in unspecified order; the registry is
modelled as the association list in that order). -/
def scanCves (problem : String) : List (String × CveStatus) → Option ObsolescenceReason
  | [] => none
  | (cve_id, status) :: rest =>
    if strContains problem cve_id then
      match status.fixed_in with
      | some fixed_in => some (ObsolescenceReason.cveFixed cve_id fixed_in)
      | none => scanCves problem rest
    else scanCves problem rest

/-- Embedding of `LifecycleManager::check_cve_obsolescence`: only rules whose
provenance source is `Forum` are checked (`if let RuleSource::Forum`); for
those, the registry is scanned for a fixed CVE referenced by the original
problem text. -/
def check_cve_obsolescence (known_cves : List (String × CveStatus))
    (rule : Rule) : Option ObsolescenceReason :=
  match rule.provenance.source with
  | RuleSource.forum _ _ => scanCves rule.provenance.original_problem known_cves
  | _ => none

/-- The skip condition of the ladder's obsolescence rung, as the code
evaluates it: there is a stored `last_applied` that parses and whose age
exceeds four rate windows. -/
def obsoleteCheck (tol : ToleranceConfig) (parseAge : String → Option Int)
    (stats : RuleStats) : Bool :=
  match stats.last_applied with
  | some last =>
    match parseAge last with
    | some age => decide ((tol.rate_window_secs : Int) * 4 < age)
    | none => false
  | none => false

/-! ### Concrete fixtures used by the witnesses and counterexamples -/

/-- A solution fixture with the given statistics. -/
def mkSolution (succ fail : Nat) : Solution :=
  { id := "sol-1", category := "gpu", problem := "nvidia driver broken"
    solution := "akmods --force", commands := [], tags := ["gpu"]
    success_count := succ, failure_count := fail
    source := SolutionSource.manual, created_at := "t0", updated_at := "t0" }

/-- All-zero rule statistics. -/
def zeroStats : RuleStats :=
  { applied_count := 0, success_count := 0, failure_count := 0
    escalation_count := 0, last_applied := none, average_duration_ms := none }

/-- Rule statistics fixture. -/
def mkStats (a s f e : Nat) (last : Option String) : RuleStats :=
  { applied_count := a, success_count := s, failure_count := f
    escalation_count := e, last_applied := last, average_duration_ms := none }

/-- A provenance fixture. -/
def mkProvenance (src : RuleSource) (problem : String) : Provenance :=
  { source := src, original_problem := problem, solution_id := none
    created_at := "t0", created_by := "tester", decision_path := [], history := [] }

/-- A rule fixture. -/
def mkRule (rid : String) (conds : List Condition) (acts : List Action)
    (enabled : Bool) (src : RuleSource) (problem : String) : Rule :=
  { id := rid, name := "fixture", version := "1.0.0", when := conds
    «then» := acts, provenance := mkProvenance src problem
    stats := zeroStats, enabled := enabled, tags := [] }

/-- A probe environment in which every external probe fails (every spawn
errors, every file is unreadable and absent). -/
def deadEnv : ProbeEnv :=
  { pgrep := fun _ => none, serviceActive := fun _ => none
    fileExists := fun _ => false, readFile := fun _ => none
    procModules := none, shell := fun _ => none }

/-- A rule whose single top-level condition negates an unevaluable probe
(`pgrep` pattern rejected by `validate_pattern`, and the spawn would fail
anyway). -/
def notRule : Rule :=
  mkRule "r-not" [Condition.not (Condition.processRunning "bad;pattern")] []
    true (RuleSource.manual "tester") "p"

/-- An existing rule with ten `when` elements and no actions, for the
tolerance example. -/
def rule10 : Rule :=
  mkRule "r-ten" (List.replicate 10 (Condition.fileExists "/tmp/marker")) []
    true (RuleSource.manual "tester") "p"

/-- A CVE registry recording one fixed CVE. -/
def cveRegistry : List (String × CveStatus) :=
  [("CVE-2024-0001",
    { id := "CVE-2024-0001", affected_packages := ["openssl"]
      fixed_in := some "1.2.3", patched_locally := false
      related_rule_ids := [] })]

/-- A manually-sourced rule whose problem text references the fixed CVE. -/
def manualCveRule : Rule :=
  mkRule "r-cve-manual" [] [] true (RuleSource.manual "tester")
    "Workaround for CVE-2024-0001 crash"

/-- A forum-sourced rule whose problem text references the fixed CVE. -/
def forumCveRule : Rule :=
  mkRule "r-cve-forum" [] [] true
    (RuleSource.forum "https://example.org/t/1" "CVE thread")
    "Workaround for CVE-2024-0001 crash"

/-- An action oracle in which every action fails. -/
def failOracle : Action → Except String String := fun _ => Except.error "boom"

/-- A rule fixture with two actions, for the execution claims. -/
def execRule : Rule :=
  mkRule "r-exec" [] [Action.log "info" "first", Action.log "info" "second"]
    true (RuleSource.manual "tester") "p"

/-- The clause store of the spec's `solves(nvidia_driver, Solution)` example:
two facts with confidences 0.9 and 0.95, in that store order. -/
def nvidiaEngine : ReasoningEngine :=
  { clauses :=
    [ { head := Term.compound "solves"
          [Term.atom "nvidia_driver", Term.atom "modprobe nvidia"]
        body := [], confidence := 9/10 },
      { head := Term.compound "solves"
          [Term.atom "nvidia_driver", Term.atom "akmods --force"]
        body := [], confidence := 19/20 } ] }

/-! ## Theorems -/

/-- Claim C4: `should_crystallize(solution)` returns true if and only if
`success_count ≥ 5` and `failure_count < success_count / 2` (integer
division); in particular it is false for `(4, 0)`, true for `(5, 0)`,
false for `(6, 4)` and true for `(10, 3)`. -/
theorem C4_should_crystallize_iff :
    (∀ sol : Solution, should_crystallize sol = true ↔
      (5 ≤ sol.success_count ∧ sol.failure_count < sol.success_count / 2)) ∧
    should_crystallize (mkSolution 4 0) = false ∧
    should_crystallize (mkSolution 5 0) = true ∧
    should_crystallize (mkSolution 6 4) = false ∧
    should_crystallize (mkSolution 10 3) = true := by
  refine ⟨fun sol => ?_, by decide, by decide, by decide, by decide⟩
  simp [should_crystallize, CRYSTALLIZATION_THRESHOLD]

/-- Claim C7: For an existing rule with at least one element,
`within_tolerance` returns true iff the normalized structural-difference
ratio (missing/extra element count over the existing rule's total element
count) is at most the variance threshold; with the default threshold 0.05,
a ten-when-element rule against a proposal differing by one element (ratio
0.1) is not within tolerance, while an identical proposal is. -/
theorem C7_within_tolerance_ratio :
    (∀ (tol : ToleranceConfig) (ex : Rule) (pc : List Condition) (pa : List Action),
      0 < ex.when.length + ex.«then».length →
      (within_tolerance tol ex pc pa = true ↔
        (((count_condition_differences ex.when pc +
            count_action_differences ex.«then» pa : Nat) : ℚ) /
          ((ex.when.length + ex.«then».length : Nat) : ℚ) ≤ tol.variance_threshold))) ∧
    within_tolerance defaultTolerance rule10
      (List.replicate 9 (Condition.fileExists "/tmp/marker")) [] = false ∧
    within_tolerance defaultTolerance rule10 rule10.when [] = true := by
  refine ⟨fun tol ex pc pa h => ?_, ?_, ?_⟩
  · unfold within_tolerance
    rw [if_neg (by omega)]
    exact decide_eq_true_iff
  · simp [within_tolerance, rule10, mkRule, count_condition_differences,
      count_action_differences, defaultTolerance]
    norm_num
  · simp [within_tolerance, rule10, mkRule, count_condition_differences,
      count_action_differences, defaultTolerance]

/-- Witness for C7: the general tolerance characterization applied to the
ten-element fixture with an identical proposal. -/
theorem C7_within_tolerance_ratio_witness :
    within_tolerance defaultTolerance rule10 rule10.when [] = true ↔
      (((count_condition_differences rule10.when rule10.when +
          count_action_differences rule10.«then» [] : Nat) : ℚ) /
        ((rule10.when.length + rule10.«then».length : Nat) : ℚ) ≤
          defaultTolerance.variance_threshold) :=
  C7_within_tolerance_ratio.1 defaultTolerance rule10 rule10.when []
    (by simp [rule10, mkRule])

/-- Claim C5: `assess_health` is a deterministic first-match-wins ladder:
(1) below `min_samples` applications → Probationary (with the application
and required counts); (2) failures at or above the review threshold and a
failure rate above 0.3 → NeedsReview; (3) escalations above half the
successes → NeedsReview; (4) last application recorded, parsable and older
than four rate windows → PossiblyObsolete; (5) success rate below
`min_success_rate` → Degrading; (6) otherwise Healthy.  In particular a
rule applied 3 times is Probationary 3 10 under the default configuration
regardless of its other statistics, and a rule with statistics
(20, 18, 4) and no escalations is Healthy. -/
theorem C5_assess_health_ladder :
    (∀ tol pa st, st.applied_count < tol.min_samples →
      assess_health tol pa st =
        RuleHealth.probationary st.applied_count tol.min_samples) ∧
    (∀ tol pa st, tol.min_samples ≤ st.applied_count →
      tol.failure_review_threshold ≤ st.failure_count →
      (3:ℚ)/10 < (st.failure_count : ℚ) / (st.applied_count : ℚ) →
      ∃ reason, assess_health tol pa st = RuleHealth.needsReview reason) ∧
    (∀ tol pa st, tol.min_samples ≤ st.applied_count →
      ¬(tol.failure_review_threshold ≤ st.failure_count ∧
        (3:ℚ)/10 < (st.failure_count : ℚ) / (st.applied_count : ℚ)) →
      st.success_count / 2 < st.escalation_count →
      ∃ reason, assess_health tol pa st = RuleHealth.needsReview reason) ∧
    (∀ tol pa st, tol.min_samples ≤ st.applied_count →
      ¬(tol.failure_review_threshold ≤ st.failure_count ∧
        (3:ℚ)/10 < (st.failure_count : ℚ) / (st.applied_count : ℚ)) →
      ¬(st.success_count / 2 < st.escalation_count) →
      obsoleteCheck tol pa st = true →
      ∃ reason, assess_health tol pa st = RuleHealth.possiblyObsolete reason) ∧
    (∀ tol pa st, tol.min_samples ≤ st.applied_count →
      ¬(tol.failure_review_threshold ≤ st.failure_count ∧
        (3:ℚ)/10 < (st.failure_count : ℚ) / (st.applied_count : ℚ)) →
      ¬(st.success_count / 2 < st.escalation_count) →
      obsoleteCheck tol pa st = false →
      (st.success_count : ℚ) / (st.applied_count : ℚ) < tol.min_success_rate →
      assess_health tol pa st =
        RuleHealth.degrading ((st.success_count : ℚ) / (st.applied_count : ℚ))
          (-(1/10))) ∧
    (∀ tol pa st, tol.min_samples ≤ st.applied_count →
      ¬(tol.failure_review_threshold ≤ st.failure_count ∧
        (3:ℚ)/10 < (st.failure_count : ℚ) / (st.applied_count : ℚ)) →
      ¬(st.success_count / 2 < st.escalation_count) →
      obsoleteCheck tol pa st = false →
      ¬((st.success_count : ℚ) / (st.applied_count : ℚ) < tol.min_success_rate) →
      assess_health tol pa st = RuleHealth.healthy) ∧
    (∀ pa s f e last dur,
      assess_health defaultTolerance pa
        { applied_count := 3, success_count := s, failure_count := f
          escalation_count := e, last_applied := last
          average_duration_ms := dur } = RuleHealth.probationary 3 10) ∧
    assess_health defaultTolerance (fun _ => none) (mkStats 20 18 4 0 none) =
      RuleHealth.healthy := by
  have unfoldTail : ∀ (tol : ToleranceConfig) (pa : String → Option Int)
      (st : RuleStats), tol.min_samples ≤ st.applied_count →
      ¬(tol.failure_review_threshold ≤ st.failure_count ∧
        (3:ℚ)/10 < (st.failure_count : ℚ) / (st.applied_count : ℚ)) →
      ¬(st.success_count / 2 < st.escalation_count) →
      obsoleteCheck tol pa st = false →
      assess_health tol pa st =
        (if (st.success_count : ℚ) / (st.applied_count : ℚ) <
            tol.min_success_rate then
          RuleHealth.degrading
            ((st.success_count : ℚ) / (st.applied_count : ℚ)) (-(1/10))
        else RuleHealth.healthy) := by
    intro tol pa st h1 h2 h3 h4
    unfold assess_health
    rw [if_neg (by omega), if_neg h2, if_neg h3]
    unfold obsoleteCheck at h4
    cases hls : st.last_applied with
    | none => simp [hls]
    | some last =>
      rw [hls] at h4
      cases hpa : pa last with
      | none => simp [hls, hpa]
      | some age =>
        replace h4 : (match pa last with
          | some age => decide ((tol.rate_window_secs : Int) * 4 < age)
          | none => false) = false := h4
        rw [hpa] at h4
        simp only [decide_eq_false_iff_not] at h4
        simp [hls, hpa, h4]
  refine ⟨?_, ?_, ?_, ?_, ?_, ?_, ?_, ?_⟩
  · intro tol pa st h
    unfold assess_health
    rw [if_pos h]
  · intro tol pa st h1 h2 h3
    refine ⟨"High failure rate: " ++ toString st.failure_count ++
      " failures out of " ++ toString st.applied_count ++ " applications", ?_⟩
    unfold assess_health
    rw [if_neg (by omega), if_pos ⟨h2, h3⟩]
  · intro tol pa st h1 h2 h3
    refine ⟨"High escalation rate: " ++ toString st.escalation_count ++
      " escalations", ?_⟩
    unfold assess_health
    rw [if_neg (by omega), if_neg h2, if_pos h3]
  · intro tol pa st h1 h2 h3 h4
    unfold assess_health
    rw [if_neg (by omega), if_neg h2, if_neg h3]
    unfold obsoleteCheck at h4
    cases hls : st.last_applied with
    | none => rw [hls] at h4; exact absurd h4 (by simp)
    | some last =>
      rw [hls] at h4
      replace h4 : (match pa last with
        | some age => decide ((tol.rate_window_secs : Int) * 4 < age)
        | none => false) = true := h4
      cases hpa : pa last with
      | none => rw [hpa] at h4; exact absurd h4 (by simp)
      | some age =>
        rw [hpa] at h4
        simp only [decide_eq_true_eq] at h4
        refine ⟨"No applications in " ++ toString (age / 86400) ++ " days", ?_⟩
        simp [hls, hpa, h4]
  · intro tol pa st h1 h2 h3 h4 h5
    rw [unfoldTail tol pa st h1 h2 h3 h4, if_pos h5]
  · intro tol pa st h1 h2 h3 h4 h5
    rw [unfoldTail tol pa st h1 h2 h3 h4, if_neg h5]
  · intro pa s f e last dur
    unfold assess_health
    rw [if_pos (by norm_num [defaultTolerance])]
    rfl
  · simp [assess_health, defaultTolerance, mkStats]
    norm_num

/-- Witness for C5: the ladder's first rung and the two concrete instances,
at concrete inputs. -/
theorem C5_assess_health_ladder_witness :
    assess_health defaultTolerance (fun _ => none) (mkStats 3 2 1 9 none) =
      RuleHealth.probationary 3 10 ∧
    assess_health defaultTolerance (fun _ => none) (mkStats 20 18 4 0 none) =
      RuleHealth.healthy :=
  ⟨C5_assess_health_ladder.1 defaultTolerance (fun _ => none)
      (mkStats 3 2 1 9 none) (by norm_num [mkStats, defaultTolerance]),
    C5_assess_health_ladder.2.2.2.2.2.2.2⟩

/-- If `scanCves` finds a reason, it is a `CveFixed` for a registered CVE
with `fixed_in` set whose id occurs in the problem text. -/
theorem scanCves_eq_some {problem : String} :
    ∀ {reg : List (String × CveStatus)} {r : ObsolescenceReason},
      scanCves problem reg = some r →
      ∃ cid v st, r = ObsolescenceReason.cveFixed cid v ∧ (cid, st) ∈ reg ∧
        st.fixed_in = some v ∧ strContains problem cid = true := by
  intro reg
  induction reg with
  | nil => intro r h; simp [scanCves] at h
  | cons p rest ih =>
    intro r h
    obtain ⟨cid, st⟩ := p
    unfold scanCves at h
    by_cases hc : strContains problem cid = true
    · rw [if_pos hc] at h
      cases hfix : st.fixed_in with
      | none =>
        rw [hfix] at h
        obtain ⟨c', v', st', hr, hmem, hf, hcon⟩ := ih h
        exact ⟨c', v', st', hr, List.mem_cons_of_mem _ hmem, hf, hcon⟩
      | some v =>
        rw [hfix] at h
        refine ⟨cid, v, st, ?_, List.mem_cons_self _ _, hfix, hc⟩
        exact (Option.some.inj h).symm
    · rw [if_neg hc] at h
      obtain ⟨c', v', st', hr, hmem, hf, hcon⟩ := ih h
      exact ⟨c', v', st', hr, List.mem_cons_of_mem _ hmem, hf, hcon⟩

/-- If the registry holds a fixed CVE occurring in the problem text,
`scanCves` finds some fixed CVE. -/
theorem scanCves_isSome_of {problem : String} :
    ∀ {reg : List (String × CveStatus)} {cid : String} {st : CveStatus}
      {v : String}, (cid, st) ∈ reg → st.fixed_in = some v →
      strContains problem cid = true →
      ∃ cid' v', scanCves problem reg =
        some (ObsolescenceReason.cveFixed cid' v') := by
  intro reg
  induction reg with
  | nil => intro cid st v hmem; simp at hmem
  | cons p rest ih =>
    intro cid st v hmem hfix hcon
    obtain ⟨c, s⟩ := p
    unfold scanCves
    by_cases hc : strContains problem c = true
    · rw [if_pos hc]
      cases hf : s.fixed_in with
      | some w => exact ⟨c, w, rfl⟩
      | none =>
        rcases List.mem_cons.mp hmem with hhead | htail
        · obtain ⟨h1, h2⟩ := Prod.mk.injEq _ _ _ _ ▸ hhead
          rw [h2, hf] at hfix
          exact absurd hfix (by simp)
        · exact ih htail hfix hcon
    · rw [if_neg hc]
      rcases List.mem_cons.mp hmem with hhead | htail
      · obtain ⟨h1, h2⟩ := Prod.mk.injEq _ _ _ _ ▸ hhead
        rw [h1] at hcon
        exact absurd hcon hc
      · exact ih htail hfix hcon

/-- If no registered CVE occurring in the problem text is fixed, `scanCves`
finds nothing. -/
theorem scanCves_eq_none {problem : String} :
    ∀ {reg : List (String × CveStatus)},
      (∀ cid st, (cid, st) ∈ reg → strContains problem cid = true →
        st.fixed_in = none) →
      scanCves problem reg = none := by
  intro reg
  induction reg with
  | nil => intro _; simp [scanCves]
  | cons p rest ih =>
    intro h
    obtain ⟨c, s⟩ := p
    unfold scanCves
    by_cases hc : strContains problem c = true
    · rw [if_pos hc]
      have hf : s.fixed_in = none := h c s (List.mem_cons_self _ _) hc
      rw [hf]
      exact ih (fun cid st hmem hcon => h cid st (List.mem_cons_of_mem _ hmem) hcon)
    · rw [if_neg hc]
      exact ih (fun cid st hmem hcon => h cid st (List.mem_cons_of_mem _ hmem) hcon)

/-- Counterexample to C8 as stated.  The claim asserts `check_cve_obsolescence`
returns `Some(CveFixed ...)` for *every* rule whose problem text references
a registered fixed CVE.  A manually-sourced rule referencing the fixed
CVE-2024-0001 refutes it: the code checks only `Forum`-sourced rules and
returns `None` here. -/
theorem C8_cve_counterexample :
    check_cve_obsolescence cveRegistry manualCveRule = none ∧
    strContains manualCveRule.provenance.original_problem "CVE-2024-0001" = true ∧
    ((cveRegistry.find? (fun p => p.1 = "CVE-2024-0001")).map
      (fun p => p.2.fixed_in)) = some (some "1.2.3") := by
  refine ⟨rfl, by decide, rfl⟩

/-- Claim C8, amended: `check_cve_obsolescence` checks only rules whose
provenance source is `Forum`: any returned reason is a `CveFixed` for a
registered fixed CVE referenced by the Forum rule's original problem text;
a Forum rule referencing a registered fixed CVE always gets one; and a rule
referencing no registered fixed CVE (in particular any non-Forum rule)
gets `None`. -/
theorem C8_cve_forum_fixed :
    (∀ reg (rule : Rule) r, check_cve_obsolescence reg rule = some r →
      (∃ url title, rule.provenance.source = RuleSource.forum url title) ∧
      ∃ cid v st, r = ObsolescenceReason.cveFixed cid v ∧ (cid, st) ∈ reg ∧
        st.fixed_in = some v ∧
        strContains rule.provenance.original_problem cid = true) ∧
    (∀ reg (rule : Rule) url title,
      rule.provenance.source = RuleSource.forum url title →
      (∃ cid st v, (cid, st) ∈ reg ∧ st.fixed_in = some v ∧
        strContains rule.provenance.original_problem cid = true) →
      ∃ cid v, check_cve_obsolescence reg rule =
        some (ObsolescenceReason.cveFixed cid v)) ∧
    (∀ reg (rule : Rule),
      (∀ cid st, (cid, st) ∈ reg →
        strContains rule.provenance.original_problem cid = true →
        st.fixed_in = none) →
      check_cve_obsolescence reg rule = none) := by
  refine ⟨?_, ?_, ?_⟩
  · intro reg rule r h
    unfold check_cve_obsolescence at h
    cases hsrc : rule.provenance.source with
    | forum url title =>
      rw [hsrc] at h
      exact ⟨⟨url, title, rfl⟩, scanCves_eq_some h⟩
    | crystallized a b => rw [hsrc] at h; exact absurd h (by simp)
    | mesh a b => rw [hsrc] at h; exact absurd h (by simp)
    | manual a => rw [hsrc] at h; exact absurd h (by simp)
    | imported a => rw [hsrc] at h; exact absurd h (by simp)
  · intro reg rule url title hsrc hex
    obtain ⟨cid, st, v, hmem, hfix, hcon⟩ := hex
    unfold check_cve_obsolescence
    rw [hsrc]
    exact scanCves_isSome_of hmem hfix hcon
  · intro reg rule h
    unfold check_cve_obsolescence
    cases hsrc : rule.provenance.source with
    | forum url title => exact scanCves_eq_none h
    | crystallized a b => rfl
    | mesh a b => rfl
    | manual a => rfl
    | imported a => rfl

/-- Witness for C8: the amended positive direction applied to the
forum-sourced fixture rule and the one-entry registry. -/
theorem C8_cve_forum_fixed_witness :
    ∃ cid v, check_cve_obsolescence cveRegistry forumCveRule =
      some (ObsolescenceReason.cveFixed cid v) :=
  C8_cve_forum_fixed.2.1 cveRegistry forumCveRule
    "https://example.org/t/1" "CVE thread" rfl
    ⟨"CVE-2024-0001",
      { id := "CVE-2024-0001", affected_packages := ["openssl"]
        fixed_in := some "1.2.3", patched_locally := false
        related_rule_ids := [] },
      "1.2.3", by simp [cveRegistry], rfl, by decide⟩

/-- Claim C3: `execute(rule_id)` runs the found rule's `then` actions strictly
in order; the first action failure aborts the remaining actions and marks
the run failed; statistics are updated exactly once, after the sequence
resolves: `applied_count` grows by exactly 1 and exactly one of
`success_count`/`failure_count` grows by exactly 1 (escalations untouched),
on the first rule with that id only.  A rule whose first action fails
records exactly one failure, produces no outputs and runs no subsequent
action (the result does not depend on the remaining actions). -/
theorem C3_execute_stats_once :
    (∀ oracle now rules rule_id r,
      rules.find? (fun x => x.id = rule_id) = some r →
      execute oracle now rules rule_id =
        some (runActions oracle r.«then» ExecutionResult.init,
          updateFirstRule rule_id
            (fun x =>
              { x with stats := bumpStats now (runActions oracle r.«then» ExecutionResult.init).success x.stats })
            rules)) ∧
    (∀ now succ st,
      (bumpStats now succ st).applied_count = st.applied_count + 1 ∧
      (bumpStats now succ st).escalation_count = st.escalation_count ∧
      (succ = true →
        (bumpStats now succ st).success_count = st.success_count + 1 ∧
        (bumpStats now succ st).failure_count = st.failure_count) ∧
      (succ = false →
        (bumpStats now succ st).failure_count = st.failure_count + 1 ∧
        (bumpStats now succ st).success_count = st.success_count)) ∧
    (∀ rule_id f (r : Rule) rs, r.id = rule_id →
      updateFirstRule rule_id f (r :: rs) = f r :: rs) ∧
    (∀ rule_id f (r : Rule) rs, r.id ≠ rule_id →
      updateFirstRule rule_id f (r :: rs) = r :: updateFirstRule rule_id f rs) ∧
    (∀ oracle (a : Action) rest acc e, oracle a = Except.error e →
      runActions oracle (a :: rest) acc =
        { acc with success := false, error := some e }) ∧
    (∀ oracle (a : Action) rest rest' acc e, oracle a = Except.error e →
      runActions oracle (a :: rest) acc = runActions oracle (a :: rest') acc) ∧
    (∀ oracle now rules rule_id r (a : Action) rest e,
      rules.find? (fun x => x.id = rule_id) = some r →
      r.«then» = a :: rest → oracle a = Except.error e →
      execute oracle now rules rule_id =
        some ({ success := false, outputs := [], error := some e },
          updateFirstRule rule_id
            (fun x => { x with stats := bumpStats now false x.stats }) rules)) := by
  have habort : ∀ oracle (a : Action) rest acc e, oracle a = Except.error e →
      runActions oracle (a :: rest) acc =
        { acc with success := false, error := some e } := by
    intro oracle a rest acc e h
    unfold runActions
    rw [h]
  refine ⟨?_, ?_, ?_, ?_, habort, ?_, ?_⟩
  · intro oracle now rules rule_id r hfind
    unfold execute
    rw [hfind]
  · intro now succ st
    refine ⟨rfl, rfl, fun h => ?_, fun h => ?_⟩ <;> subst h <;>
      simp [bumpStats]
  · intro rule_id f r rs h
    show (if r.id = rule_id then f r :: rs
      else r :: updateFirstRule rule_id f rs) = f r :: rs
    rw [if_pos h]
  · intro rule_id f r rs h
    show (if r.id = rule_id then f r :: rs
      else r :: updateFirstRule rule_id f rs) =
        r :: updateFirstRule rule_id f rs
    rw [if_neg h]
  · intro oracle a rest rest' acc e h
    rw [habort oracle a rest acc e h, habort oracle a rest' acc e h]
  · intro oracle now rules rule_id r a rest e hfind hthen horacle
    unfold execute
    rw [hfind]
    simp only [hthen, habort oracle a rest ExecutionResult.init e horacle]
    rfl

/-- Witness for C3: executing the fixture rule, whose first action fails
under the all-failing oracle, records the failure and produces no outputs. -/
theorem C3_execute_stats_once_witness :
    execute failOracle "t1" [execRule] "r-exec" =
      some ({ success := false, outputs := [], error := some "boom" },
        updateFirstRule "r-exec"
          (fun x => { x with stats := bumpStats "t1" false x.stats })
          [execRule]) :=
  C3_execute_stats_once.2.2.2.2.2.2 failOracle "t1" [execRule] "r-exec"
    execRule (Action.log "info" "first") [Action.log "info" "second"] "boom"
    rfl rfl rfl

/-- Membership is preserved by the stable descending insertion. -/
theorem mem_insDescBy {α : Type} (key : α → Nat) (x y : α) :
    ∀ l : List α, y ∈ insDescBy key x l ↔ y = x ∨ y ∈ l := by
  intro l
  induction l with
  | nil => simp [insDescBy]
  | cons z zs ih =>
    unfold insDescBy
    by_cases h : key x ≤ key z
    · rw [if_pos h]
      simp only [List.mem_cons, ih]
      try tauto
    · rw [if_neg h]
      simp only [List.mem_cons]
      try tauto

/-- Membership is preserved by the stable descending sort. -/
theorem mem_sortDescBy {α : Type} (key : α → Nat) (l : List α) (y : α) :
    y ∈ sortDescBy key l ↔ y ∈ l := by
  have general : ∀ (l acc : List α),
      (y ∈ l.foldl (fun acc x => insDescBy key x acc) acc ↔ y ∈ acc ∨ y ∈ l) := by
    intro l
    induction l with
    | nil => intro acc; simp
    | cons z zs ih =>
      intro acc
      simp only [List.foldl_cons, ih, mem_insDescBy, List.mem_cons]
      tauto
  unfold sortDescBy
  rw [general]
  simp

/-- Claim C10: Every rule built by `crystallize` starts enabled with zeroed
statistics and no recorded application, so it is immediately eligible: as
soon as its conditions evaluate true it is returned by `find_matching` over
the store it was appended to — no separate enablement or review step. -/
theorem C10_crystallize_enabled_eligible :
    (∀ now rule_id sol conds acts,
      (crystallize now rule_id sol conds acts).enabled = true ∧
      (crystallize now rule_id sol conds acts).stats = zeroStats) ∧
    (∀ now rule_id sol conds acts env rules,
      evaluate_conditions env conds = true →
      crystallize now rule_id sol conds acts ∈
        find_matching env (add_rule rules (crystallize now rule_id sol conds acts))) := by
  constructor
  · intro now rule_id sol conds acts
    exact ⟨rfl, rfl⟩
  · intro now rule_id sol conds acts env rules h
    unfold find_matching
    rw [mem_sortDescBy]
    refine List.mem_filter.mpr ⟨?_, ?_⟩
    · unfold add_rule
      exact List.mem_append_right _ (List.mem_singleton.mpr rfl)
    · show ((crystallize now rule_id sol conds acts).enabled &&
        evaluate_conditions env (crystallize now rule_id sol conds acts).when) = true
      have hwhen : (crystallize now rule_id sol conds acts).when = conds := rfl
      have hen : (crystallize now rule_id sol conds acts).enabled = true := rfl
      rw [hwhen, hen, h]
      rfl

/-- Witness for C10: a freshly crystallized condition-free rule is returned
by `find_matching` over the singleton store, even under the all-failing
probe environment. -/
theorem C10_crystallize_enabled_eligible_witness :
    crystallize "t1" "rule-fixed" (mkSolution 5 0) [] [] ∈
      find_matching deadEnv
        (add_rule [] (crystallize "t1" "rule-fixed" (mkSolution 5 0) [] [])) :=
  C10_crystallize_enabled_eligible.2 "t1" "rule-fixed" (mkSolution 5 0) [] []
    deadEnv [] rfl

/-- Counterexample to C6 as stated.  The claim asserts a rule is never returned by
`find_matching` on a probe it cannot evaluate.  `notRule`'s only condition
wraps an unevaluable probe (`pgrep` pattern rejected by `validate_pattern`;
the spawn would fail too) in `Not`: the probe failure is swallowed to
`false`, the negation turns it into `true`, and the enabled rule *is*
returned. -/
theorem C6_fail_closed_counterexample :
    evaluate_condition deadEnv (Condition.processRunning "bad;pattern") = false ∧
    notRule.when = [Condition.not (Condition.processRunning "bad;pattern")] ∧
    notRule.enabled = true ∧
    find_matching deadEnv [notRule] = [notRule] :=
  ⟨by decide, rfl, rfl, rfl⟩

/-- Claim C6, amended: Condition evaluation is total and fail-closed at the
probe level: an invalid process pattern or service name, a failed spawn, an
unreadable file, or an unimplemented condition variant makes that primitive
condition evaluate to false rather than raising an error; and
`find_matching` returns only enabled rules whose every top-level `when`
condition evaluates true, so a rule whose failing probe appears as a
top-level condition never fires.  (A probe failure nested under `Not` —
see the counterexample — evaluates to true and can fire.) -/
theorem C6_fail_closed_primitives :
    (∀ env name err, validate_pattern name = Except.error err →
      evaluate_condition env (Condition.processRunning name) = false) ∧
    (∀ env name ok, validate_pattern name = Except.ok ok →
      env.pgrep ok = none →
      evaluate_condition env (Condition.processRunning name) = false) ∧
    (∀ env name state err, validate_service_name name = Except.error err →
      evaluate_condition env (Condition.serviceState name state) = false) ∧
    (∀ env name state ok, validate_service_name name = Except.ok ok →
      env.serviceActive ok = none →
      evaluate_condition env (Condition.serviceState name state) = false) ∧
    (∀ env path pattern, env.readFile path = none →
      evaluate_condition env (Condition.fileContains path pattern) = false) ∧
    (∀ env name, env.procModules = none →
      evaluate_condition env (Condition.moduleLoaded name) = false) ∧
    (∀ env command, env.shell command = none →
      evaluate_condition env (Condition.shellCheck command) = false) ∧
    (∀ env metric op value,
      evaluate_condition env (Condition.metricThreshold metric op value) = false) ∧
    (∀ env port protocol,
      evaluate_condition env (Condition.portOpen port protocol) = false) ∧
    (∀ env name,
      evaluate_condition env (Condition.packageInstalled name) = false) ∧
    (∀ env rules r, r ∈ find_matching env rules →
      r.enabled = true ∧ ∀ c ∈ r.when, evaluate_condition env c = true) ∧
    (∀ env rules (r : Rule) c, c ∈ r.when →
      evaluate_condition env c = false → r ∉ find_matching env rules) := by
  have hmatch : ∀ env rules r, r ∈ find_matching env rules →
      r.enabled = true ∧ ∀ c ∈ r.when, evaluate_condition env c = true := by
    intro env rules r h
    unfold find_matching at h
    rw [mem_sortDescBy] at h
    obtain ⟨-, hcond⟩ := List.mem_filter.mp h
    rw [Bool.and_eq_true] at hcond
    refine ⟨hcond.1, ?_⟩
    have := hcond.2
    unfold evaluate_conditions at this
    exact fun c hc => List.all_eq_true.mp this c hc
  refine ⟨?_, ?_, ?_, ?_, ?_, ?_, ?_, ?_, ?_, ?_, hmatch, ?_⟩
  · intro env name err h
    simp [evaluate_condition, h]
  · intro env name ok h hp
    simp [evaluate_condition, h, hp]
  · intro env name state err h
    simp [evaluate_condition, h]
  · intro env name state ok h hs
    simp [evaluate_condition, h, hs]
  · intro env path pattern h
    simp [evaluate_condition, h]
  · intro env name h
    simp [evaluate_condition, h]
  · intro env command h
    simp [evaluate_condition, h]
  · intro env metric op value
    simp [evaluate_condition]
  · intro env port protocol
    simp [evaluate_condition]
  · intro env name
    simp [evaluate_condition]
  · intro env rules r c hc hfalse hmem
    obtain ⟨-, hall⟩ := hmatch env rules r hmem
    rw [hall c hc] at hfalse
    exact absurd hfalse (by simp)

/-- Witness for C6: the primitive fail-closed conjuncts at concrete inputs:
a failing `sh -c` spawn and an unimplemented metric probe both evaluate
false. -/
theorem C6_fail_closed_primitives_witness :
    evaluate_condition deadEnv (Condition.shellCheck "true") = false ∧
    evaluate_condition deadEnv (Condition.metricThreshold "load" "gt" 1) = false :=
  ⟨C6_fail_closed_primitives.2.2.2.2.2.2.1 deadEnv "true" rfl,
    C6_fail_closed_primitives.2.2.2.2.2.2.2.1 deadEnv "load" "gt" 1⟩

/-- Inserting into the collected results permutes consing. -/
theorem insDesc_perm (x : Subst × ℚ) :
    ∀ l : List (Subst × ℚ), List.Perm (insDesc x l) (x :: l) := by
  intro l
  induction l with
  | nil => simp [insDesc]
  | cons y ys ih =>
    unfold insDesc
    by_cases h : x.2 ≤ y.2
    · rw [if_pos h]
      exact (ih.cons y).trans (List.Perm.swap x y ys)
    · rw [if_neg h]

/-- Sortedness (weakly descending by confidence) is preserved by the stable
insertion. -/
theorem insDesc_sorted (x : Subst × ℚ) :
    ∀ l : List (Subst × ℚ),
      List.Sorted (fun a b : Subst × ℚ => b.2 ≤ a.2) l →
      List.Sorted (fun a b : Subst × ℚ => b.2 ≤ a.2) (insDesc x l) := by
  intro l
  induction l with
  | nil => intro _; simp [insDesc]
  | cons y ys ih =>
    intro hs
    rw [List.sorted_cons] at hs
    obtain ⟨hy, hys⟩ := hs
    unfold insDesc
    by_cases h : x.2 ≤ y.2
    · rw [if_pos h]
      rw [List.sorted_cons]
      refine ⟨?_, ih hys⟩
      intro z hz
      rcases List.mem_cons.mp ((insDesc_perm x ys).mem_iff.mp hz) with hzx | hzy
      · rw [hzx]; exact h
      · exact hy z hzy
    · rw [if_neg h]
      rw [List.sorted_cons]
      refine ⟨?_, List.sorted_cons.mpr ⟨hy, hys⟩⟩
      intro z hz
      rcases List.mem_cons.mp hz with hzy | hzy
      · rw [hzy]; exact le_of_not_le h
      · exact le_trans (hy z hzy) (le_of_not_le h)

/-- The sort of `query` is a permutation: one result per matching clause. -/
theorem sortByConfDesc_perm (l : List (Subst × ℚ)) :
    List.Perm (sortByConfDesc l) l := by
  have general : ∀ (l acc : List (Subst × ℚ)),
      List.Perm (l.foldl (fun acc x => insDesc x acc) acc) (acc ++ l) := by
    intro l
    induction l with
    | nil => intro acc; simp
    | cons x xs ih =>
      intro acc
      simp only [List.foldl_cons]
      refine (ih (insDesc x acc)).trans ?_
      have h1 : List.Perm (insDesc x acc ++ xs) ((x :: acc) ++ xs) :=
        (insDesc_perm x acc).append_right xs
      refine h1.trans ?_
      simp only [List.cons_append]
      exact List.perm_middle.symm
  simpa using general l []

/-- The sort of `query` is weakly descending by confidence. -/
theorem sortByConfDesc_sorted (l : List (Subst × ℚ)) :
    List.Sorted (fun a b : Subst × ℚ => b.2 ≤ a.2) (sortByConfDesc l) := by
  have general : ∀ (l acc : List (Subst × ℚ)),
      List.Sorted (fun a b : Subst × ℚ => b.2 ≤ a.2) acc →
      List.Sorted (fun a b : Subst × ℚ => b.2 ≤ a.2)
        (l.foldl (fun acc x => insDesc x acc) acc) := by
    intro l
    induction l with
    | nil => intro acc h; simpa using h
    | cons x xs ih =>
      intro acc h
      simp only [List.foldl_cons]
      exact ih _ (insDesc_sorted x acc h)
  exact general l [] (by simp)

/-- All-equal confidences are left in store order by the sort (stability on
ties). -/
theorem sortByConfDesc_ties (c : ℚ) :
    ∀ l : List (Subst × ℚ), (∀ x ∈ l, x.2 = c) → sortByConfDesc l = l := by
  have hins : ∀ (x : Subst × ℚ) (acc : List (Subst × ℚ)),
      (∀ y ∈ acc, x.2 ≤ y.2) → insDesc x acc = acc ++ [x] := by
    intro x acc
    induction acc with
    | nil => intro _; simp [insDesc]
    | cons y ys ih =>
      intro h
      unfold insDesc
      rw [if_pos (h y (List.mem_cons_self _ _))]
      rw [ih (fun z hz => h z (List.mem_cons_of_mem _ hz))]
      simp
  have general : ∀ (l acc : List (Subst × ℚ)), (∀ x ∈ l, x.2 = c) →
      (∀ y ∈ acc, y.2 = c) →
      l.foldl (fun acc x => insDesc x acc) acc = acc ++ l := by
    intro l
    induction l with
    | nil => intro acc _ _; simp
    | cons x xs ih =>
      intro acc hl hacc
      simp only [List.foldl_cons]
      rw [hins x acc (fun y hy => by
        rw [hl x (List.mem_cons_self _ _), hacc y hy])]
      rw [ih (acc ++ [x]) (fun z hz => hl z (List.mem_cons_of_mem _ hz))
        (fun y hy => by
          rcases List.mem_append.mp hy with hy1 | hy2
          · exact hacc y hy1
          · rw [List.mem_singleton.mp hy2]
            exact hl x (List.mem_cons_self _ _))]
      simp
  intro l hl
  unfold sortByConfDesc
  rw [general l [] hl (by simp)]
  simp

/-- One-step equation of the clause loop on a cons cell. -/
theorem collectResults_cons (uFuel : Nat) (q : Term → Option (List (Subst × ℚ)))
    (goal : Term) (c : Clause) (cs : List Clause) :
    collectResults uFuel q goal (c :: cs) =
      match unifyF uFuel goal c.head [] with
      | URes.diverge => none
      | URes.fail => collectResults uFuel q goal cs
      | URes.ok s =>
        if c.body.isEmpty then
          (collectResults uFuel q goal cs).map (fun rest => (s, c.confidence) :: rest)
        else
          match proveBodyWith q c.body s with
          | none => none
          | some none => collectResults uFuel q goal cs
          | some (some (sf, bodyConf)) =>
            (collectResults uFuel q goal cs).map
              (fun rest => (sf, c.confidence * bodyConf) :: rest) := rfl

/-- The clause loop on a cons cell whose head unifies. -/
theorem collectResults_cons_ok (uFuel : Nat)
    (q : Term → Option (List (Subst × ℚ))) (goal : Term) (c : Clause)
    (cs : List Clause) (s : Subst)
    (h : unifyF uFuel goal c.head [] = URes.ok s) :
    collectResults uFuel q goal (c :: cs) =
      if c.body.isEmpty then
        (collectResults uFuel q goal cs).map (fun rest => (s, c.confidence) :: rest)
      else
        match proveBodyWith q c.body s with
        | none => none
        | some none => collectResults uFuel q goal cs
        | some (some (sf, bodyConf)) =>
          (collectResults uFuel q goal cs).map
            (fun rest => (sf, c.confidence * bodyConf) :: rest) := by
  rw [collectResults_cons, h]

/-- One-step equation of the body-proving loop on a cons cell. -/
theorem proveBodyWith_cons (q : Term → Option (List (Subst × ℚ)))
    (g : Term) (gs : List Term) (s : Subst) :
    proveBodyWith q (g :: gs) s =
      match q (walk s g) with
      | none => none
      | some solutions =>
        match solutions.head? with
        | none => some none
        | some (s', conf) =>
          match proveBodyWith q gs (extendSubst s s') with
          | none => none
          | some none => some none
          | some (some (sf, confRest)) => some (some (sf, conf * confRest)) := rfl

/-- Claim C2: `query(goal)` yields one result per clause whose head unifies
with the goal under the empty substitution — a fact contributes the clause
confidence, a rule contributes clause confidence times the proven body
confidence, a failing body eliminates the clause — where `prove_body`
resolves each body goal under the accumulating substitution, recursively
queries it and keeps only the first solution; the collected results are
stably sorted descending by confidence (a permutation, weakly descending,
ties kept in store order).  In particular the
`solves(nvidia_driver, Solution)` query against facts with confidences 0.9
and 0.95 returns exactly those two results, 0.95 first. -/
theorem C2_query_confidence_ranking :
    (∀ n eng goal, queryF (Nat.succ n) eng goal =
      (collectResults n (queryF n eng) goal eng.clauses).map sortByConfDesc) ∧
    (∀ uFuel q goal c cs, unifyF uFuel goal c.head [] = URes.fail →
      collectResults uFuel q goal (c :: cs) = collectResults uFuel q goal cs) ∧
    (∀ uFuel q goal c cs s, unifyF uFuel goal c.head [] = URes.ok s →
      c.body = [] →
      collectResults uFuel q goal (c :: cs) =
        (collectResults uFuel q goal cs).map
          (fun rest => (s, c.confidence) :: rest)) ∧
    (∀ uFuel q goal c cs s sf bodyConf,
      unifyF uFuel goal c.head [] = URes.ok s →
      c.body ≠ [] → proveBodyWith q c.body s = some (some (sf, bodyConf)) →
      collectResults uFuel q goal (c :: cs) =
        (collectResults uFuel q goal cs).map
          (fun rest => (sf, c.confidence * bodyConf) :: rest)) ∧
    (∀ uFuel q goal c cs s, unifyF uFuel goal c.head [] = URes.ok s →
      c.body ≠ [] → proveBodyWith q c.body s = some none →
      collectResults uFuel q goal (c :: cs) = collectResults uFuel q goal cs) ∧
    (∀ q s, proveBodyWith q [] s = some (some (s, 1))) ∧
    (∀ q g gs s, q (walk s g) = some [] →
      proveBodyWith q (g :: gs) s = some none) ∧
    (∀ q g gs s s' conf rest, q (walk s g) = some ((s', conf) :: rest) →
      proveBodyWith q (g :: gs) s =
        (match proveBodyWith q gs (extendSubst s s') with
         | none => none
         | some none => some none
         | some (some (sf, confRest)) => some (some (sf, conf * confRest)))) ∧
    (∀ l, List.Sorted (fun a b : Subst × ℚ => b.2 ≤ a.2) (sortByConfDesc l)) ∧
    (∀ l, List.Perm (sortByConfDesc l) l) ∧
    (∀ (l : List (Subst × ℚ)) (c : ℚ), (∀ x ∈ l, x.2 = c) →
      sortByConfDesc l = l) ∧
    queryF 3 nvidiaEngine
        (Term.compound "solves" [Term.atom "nvidia_driver", Term.var "Solution"]) =
      some [ ([("Solution", Term.atom "akmods --force")], 19/20),
             ([("Solution", Term.atom "modprobe nvidia")], 9/10) ] := by
  refine ⟨?_, ?_, ?_, ?_, ?_, ?_, ?_, ?_,
    sortByConfDesc_sorted, sortByConfDesc_perm,
    fun l c => sortByConfDesc_ties c l, ?_⟩
  · intro n eng goal
    unfold queryF
    cases collectResults n (queryF n eng) goal eng.clauses <;> rfl
  · intro uFuel q goal c cs h
    rw [collectResults_cons, h]
  · intro uFuel q goal c cs s h hb
    rw [collectResults_cons_ok uFuel q goal c cs s h, hb]
    rfl
  · intro uFuel q goal c cs s sf bodyConf h hb hp
    rw [collectResults_cons_ok uFuel q goal c cs s h]
    have hemp : c.body.isEmpty = false := by
      cases hcb : c.body with
      | nil => exact absurd hcb hb
      | cons g gs => rfl
    rw [hemp, hp]
    rfl
  · intro uFuel q goal c cs s h hb hp
    rw [collectResults_cons_ok uFuel q goal c cs s h]
    have hemp : c.body.isEmpty = false := by
      cases hcb : c.body with
      | nil => exact absurd hcb hb
      | cons g gs => rfl
    rw [hemp, hp]
    rfl
  · intro q s
    rfl
  · intro q g gs s h
    rw [proveBodyWith_cons, h]
    rfl
  · intro q g gs s s' conf rest h
    rw [proveBodyWith_cons, h]
    rfl
  · simp [queryF, nvidiaEngine, collectResults, sortByConfDesc, insDesc]
    norm_num [unifyF, walk, walkF, lookupSubst, unifyArgsWith, insDesc]

/-- Witness for C2: the fact-clause conjunct at a concrete clause store:
a fact whose head unifies contributes exactly its confidence. -/
theorem C2_query_confidence_ranking_witness :
    collectResults 2 (queryF 2 nvidiaEngine)
        (Term.compound "solves" [Term.atom "nvidia_driver", Term.var "Solution"])
        [ { head := Term.compound "solves"
              [Term.atom "nvidia_driver", Term.atom "modprobe nvidia"]
            body := [], confidence := 9/10 } ] =
      (collectResults 2 (queryF 2 nvidiaEngine)
        (Term.compound "solves" [Term.atom "nvidia_driver", Term.var "Solution"])
        []).map
        (fun rest => ([("Solution", Term.atom "modprobe nvidia")], (9:ℚ)/10) :: rest) :=
  C2_query_confidence_ranking.2.2.1 2 (queryF 2 nvidiaEngine)
    (Term.compound "solves" [Term.atom "nvidia_driver", Term.var "Solution"])
    { head := Term.compound "solves"
        [Term.atom "nvidia_driver", Term.atom "modprobe nvidia"]
      body := [], confidence := 9/10 }
    [] [("Solution", Term.atom "modprobe nvidia")] (by decide) rfl

/-- One-step equation of the fueled unifier. -/
theorem unifyF_succ (n : Nat) (t1 t2 : Term) (s : Subst) :
    unifyF (Nat.succ n) t1 t2 s =
      match walk s t1, walk s t2 with
      | Term.var v1, Term.var v2 =>
        if v1 = v2 then URes.ok s else URes.ok ((v1, Term.var v2) :: s)
      | Term.var v, t => URes.ok ((v, t) :: s)
      | t, Term.var v => URes.ok ((v, t) :: s)
      | Term.atom a1, Term.atom a2 => if a1 = a2 then URes.ok s else URes.fail
      | Term.compound f1 args1, Term.compound f2 args2 =>
        if f1 = f2 ∧ args1.length = args2.length then
          unifyArgsWith (unifyF n) (args1.zip args2) s
        else URes.fail
      | Term.list l1, Term.list l2 =>
        if l1.length = l2.length then unifyArgsWith (unifyF n) (l1.zip l2) s
        else URes.fail
      | _, _ => URes.fail := rfl

/-- Claim C1: `unify(t1, t2, s)` first resolves both terms through `s`
(`walk`) and returns `Some` exactly in these cases: two identical variables
(`s` unchanged); a variable against any other term (`s` extended by binding
that variable to the other walked term, with no occurs-check); equal atoms
(`s` unchanged); compounds with the same functor and arity whose argument
pairs all unify left-to-right under the accumulating substitution; lists of
equal length, element-wise.  Every other pairing fails, and the argument
loop short-circuits on the first failing pair.  (The embedding is pure:
all three inputs are read-only and the result is a new substitution.) -/
theorem C1_unify_case_analysis (n : Nat) (s : Subst) :
    (∀ t1 t2 v, walk s t1 = Term.var v → walk s t2 = Term.var v →
      unifyF (Nat.succ n) t1 t2 s = URes.ok s) ∧
    (∀ t1 t2 v, walk s t1 = Term.var v → walk s t2 ≠ Term.var v →
      unifyF (Nat.succ n) t1 t2 s = URes.ok ((v, walk s t2) :: s)) ∧
    (∀ t1 t2 v, (∀ w, walk s t1 ≠ Term.var w) → walk s t2 = Term.var v →
      unifyF (Nat.succ n) t1 t2 s = URes.ok ((v, walk s t1) :: s)) ∧
    (∀ t1 t2 a, walk s t1 = Term.atom a → walk s t2 = Term.atom a →
      unifyF (Nat.succ n) t1 t2 s = URes.ok s) ∧
    (∀ t1 t2 a b, walk s t1 = Term.atom a → walk s t2 = Term.atom b →
      a ≠ b → unifyF (Nat.succ n) t1 t2 s = URes.fail) ∧
    (∀ t1 t2 f args1 args2, walk s t1 = Term.compound f args1 →
      walk s t2 = Term.compound f args2 → args1.length = args2.length →
      unifyF (Nat.succ n) t1 t2 s =
        unifyArgsWith (unifyF n) (args1.zip args2) s) ∧
    (∀ t1 t2 f g args1 args2, walk s t1 = Term.compound f args1 →
      walk s t2 = Term.compound g args2 →
      (f ≠ g ∨ args1.length ≠ args2.length) →
      unifyF (Nat.succ n) t1 t2 s = URes.fail) ∧
    (∀ t1 t2 l1 l2, walk s t1 = Term.list l1 → walk s t2 = Term.list l2 →
      l1.length = l2.length →
      unifyF (Nat.succ n) t1 t2 s = unifyArgsWith (unifyF n) (l1.zip l2) s) ∧
    (∀ t1 t2 l1 l2, walk s t1 = Term.list l1 → walk s t2 = Term.list l2 →
      l1.length ≠ l2.length → unifyF (Nat.succ n) t1 t2 s = URes.fail) ∧
    (∀ t1 t2, (∀ w, walk s t1 ≠ Term.var w) →
      (∀ w, walk s t2 ≠ Term.var w) →
      headTag (walk s t1) ≠ headTag (walk s t2) →
      unifyF (Nat.succ n) t1 t2 s = URes.fail) ∧
    (∀ s', unifyArgsWith (unifyF n) [] s' = URes.ok s') ∧
    (∀ a b rest s', unifyF n a b s' = URes.fail →
      unifyArgsWith (unifyF n) ((a, b) :: rest) s' = URes.fail) ∧
    (∀ a b rest s', unifyF n a b s' = URes.diverge →
      unifyArgsWith (unifyF n) ((a, b) :: rest) s' = URes.diverge) ∧
    (∀ a b rest s' s'', unifyF n a b s' = URes.ok s'' →
      unifyArgsWith (unifyF n) ((a, b) :: rest) s' =
        unifyArgsWith (unifyF n) rest s'') := by
  refine ⟨?_, ?_, ?_, ?_, ?_, ?_, ?_, ?_, ?_, ?_, ?_, ?_, ?_, ?_⟩
  · intro t1 t2 v h1 h2
    rw [unifyF_succ, h1, h2]
    simp
  · intro t1 t2 v h1 h2
    cases hw2 : walk s t2 with
    | var w =>
      have hvw : v ≠ w := fun hh => h2 (by rw [hw2, hh])
      rw [unifyF_succ, h1, hw2]
      simp [hvw]
    | atom a => rw [unifyF_succ, h1, hw2]
    | compound g bs => rw [unifyF_succ, h1, hw2]
    | list bs => rw [unifyF_succ, h1, hw2]
  · intro t1 t2 v h1 h2
    cases hw1 : walk s t1 with
    | var w => exact absurd hw1 (h1 w)
    | atom a => rw [unifyF_succ, hw1, h2]
    | compound g bs => rw [unifyF_succ, hw1, h2]
    | list bs => rw [unifyF_succ, hw1, h2]
  · intro t1 t2 a h1 h2
    rw [unifyF_succ, h1, h2]
    simp
  · intro t1 t2 a b h1 h2 hne
    rw [unifyF_succ, h1, h2]
    simp [hne]
  · intro t1 t2 f args1 args2 h1 h2 hlen
    rw [unifyF_succ, h1, h2]
    exact if_pos ⟨rfl, hlen⟩
  · intro t1 t2 f g args1 args2 h1 h2 hne
    rw [unifyF_succ, h1, h2]
    refine if_neg ?_
    rintro ⟨hf, hl⟩
    rcases hne with hne | hne
    · exact hne hf
    · exact hne hl
  · intro t1 t2 l1 l2 h1 h2 hlen
    rw [unifyF_succ, h1, h2]
    exact if_pos hlen
  · intro t1 t2 l1 l2 h1 h2 hlen
    rw [unifyF_succ, h1, h2]
    exact if_neg hlen
  · intro t1 t2 h1 h2 htag
    cases hw1 : walk s t1 with
    | var v => exact absurd hw1 (h1 v)
    | atom a =>
      cases hw2 : walk s t2 with
      | var w => exact absurd hw2 (h2 w)
      | atom b => rw [hw1, hw2] at htag; exact absurd rfl htag
      | compound g bs => rw [unifyF_succ, hw1, hw2]
      | list bs => rw [unifyF_succ, hw1, hw2]
    | compound f as =>
      cases hw2 : walk s t2 with
      | var w => exact absurd hw2 (h2 w)
      | atom b => rw [unifyF_succ, hw1, hw2]
      | compound g bs => rw [hw1, hw2] at htag; exact absurd rfl htag
      | list bs => rw [unifyF_succ, hw1, hw2]
    | list ls =>
      cases hw2 : walk s t2 with
      | var w => exact absurd hw2 (h2 w)
      | atom b => rw [unifyF_succ, hw1, hw2]
      | compound g bs => rw [unifyF_succ, hw1, hw2]
      | list bs => rw [hw1, hw2] at htag; exact absurd rfl htag
  · intro s'
    rfl
  · intro a b rest s' h
    show (match unifyF n a b s' with
      | URes.diverge => URes.diverge
      | URes.fail => URes.fail
      | URes.ok s'' => unifyArgsWith (unifyF n) rest s'') = URes.fail
    rw [h]
  · intro a b rest s' h
    show (match unifyF n a b s' with
      | URes.diverge => URes.diverge
      | URes.fail => URes.fail
      | URes.ok s'' => unifyArgsWith (unifyF n) rest s'') = URes.diverge
    rw [h]
  · intro a b rest s' s'' h
    show (match unifyF n a b s' with
      | URes.diverge => URes.diverge
      | URes.fail => URes.fail
      | URes.ok s'' => unifyArgsWith (unifyF n) rest s'') =
        unifyArgsWith (unifyF n) rest s''
    rw [h]

/-- Witness for C1: the variable-binding case at a concrete input —
`unify(X, hello, ∅)` binds `X` to the atom. -/
theorem C1_unify_case_analysis_witness :
    unifyF 1 (Term.var "X") (Term.atom "hello") [] =
      URes.ok [("X", walk [] (Term.atom "hello"))] :=
  (C1_unify_case_analysis 0 []).2.1 (Term.var "X") (Term.atom "hello") "X"
    rfl (by decide)

/-! ### Walk lemmas for the symmetry proof (C9) -/

/-- `walk` is the identity on non-variables, for any fuel. -/
theorem walkF_nonvar (k : Nat) (s : Subst) (t : Term)
    (h : ∀ w, t ≠ Term.var w) : walkF k s t = t := by
  cases k with
  | zero => rfl
  | succ k =>
    cases t with
    | var v => exact absurd rfl (h v)
    | atom a => rfl
    | compound f as => rfl
    | list l => rfl

/-- `walk` is the identity on non-variables. -/
theorem walk_nonvar (s : Subst) (t : Term) (h : ∀ w, t ≠ Term.var w) :
    walk s t = t := walkF_nonvar _ s t h

/-- `walk` is the identity on unbound variables, for any fuel. -/
theorem walkF_unbound (k : Nat) (s : Subst) (v : String)
    (h : lookupSubst s v = none) : walkF k s (Term.var v) = Term.var v := by
  cases k with
  | zero => rfl
  | succ k =>
    show (match lookupSubst s v with
      | some t => walkF k s t
      | none => Term.var v) = Term.var v
    rw [h]

/-- `walk` is the identity on unbound variables. -/
theorem walk_unbound (s : Subst) (v : String) (h : lookupSubst s v = none) :
    walk s (Term.var v) = Term.var v := walkF_unbound _ s v h

/-- `walk` is the identity on var-resolved terms. -/
theorem walk_of_resolved (s : Subst) (t : Term) (h : Resolved s t) :
    walk s t = t := by
  cases t with
  | var v => exact walk_unbound s v h
  | atom a => exact walk_nonvar s _ (fun w hw => Term.noConfusion hw)
  | compound f as => exact walk_nonvar s _ (fun w hw => Term.noConfusion hw)
  | list l => exact walk_nonvar s _ (fun w hw => Term.noConfusion hw)

/-- One lookup step of `walk` on a bound variable. -/
theorem walkF_succ_bound (k : Nat) (s : Subst) (v : String) (t' : Term)
    (h : lookupSubst s v = some t') :
    walkF (Nat.succ k) s (Term.var v) = walkF k s t' := by
  show (match lookupSubst s v with
    | some t => walkF k s t
    | none => Term.var v) = walkF k s t'
  rw [h]

/-- Once the walk's value is var-resolved, one more unit of fuel does not
change it. -/
theorem walkF_stable_of_res :
    ∀ (k : Nat) (s : Subst) (t : Term), Resolved s (walkF k s t) →
      walkF (Nat.succ k) s t = walkF k s t := by
  intro k
  induction k with
  | zero =>
    intro s t h
    cases t with
    | var v => exact walkF_unbound 1 s v h
    | atom a => rfl
    | compound f as => rfl
    | list l => rfl
  | succ k ih =>
    intro s t h
    cases t with
    | var v =>
      cases hl : lookupSubst s v with
      | none => rw [walkF_unbound _ s v hl, walkF_unbound _ s v hl]
      | some t' =>
        rw [walkF_succ_bound k s v t' hl] at h
        rw [walkF_succ_bound (Nat.succ k) s v t' hl,
          walkF_succ_bound k s v t' hl]
        exact ih s t' h
    | atom a => rfl
    | compound f as => rfl
    | list l => rfl

/-- Fuel beyond a var-resolved value never changes the walk's result. -/
theorem walkF_stable_add :
    ∀ (j k : Nat) (s : Subst) (t : Term), Resolved s (walkF k s t) →
      walkF (k + j) s t = walkF k s t := by
  intro j
  induction j with
  | zero => intro k s t _; rfl
  | succ j ih =>
    intro k s t h
    have e := ih k s t h
    have h2 : Resolved s (walkF (k + j) s t) := by rw [e]; exact h
    calc walkF (k + Nat.succ j) s t = walkF (Nat.succ (k + j)) s t := by
          rw [Nat.add_succ]
      _ = walkF (k + j) s t := walkF_stable_of_res _ _ _ h2
      _ = walkF k s t := e

/-- How `walk` behaves after binding a fresh unbound variable `u` to a
var-resolved term `tn` (the shape of every insertion `unify` performs):
chains that ended at `u` now continue to `tn`, everything else is
unchanged. -/
theorem walk_cons_aux (s : Subst) (u : String) (tn : Term)
    (hres : ∀ t, Resolved s (walk s t)) (hu : lookupSubst s u = none)
    (hrtn : Resolved s tn) (hne : tn ≠ Term.var u) :
    ∀ (k : Nat) (t : Term), walkF k s t = walk s t →
      walkF (Nat.succ k) ((u, tn) :: s) t =
        (if walk s t = Term.var u then tn else walk s t) := by
  have hnonvar : ∀ (k : Nat) (t : Term), (∀ w, t ≠ Term.var w) →
      walkF (Nat.succ k) ((u, tn) :: s) t =
        (if walk s t = Term.var u then tn else walk s t) := by
    intro k t hnv
    rw [walkF_nonvar _ _ _ hnv, walk_nonvar s t hnv, if_neg (hnv u)]
  have htn_fix : ∀ (k : Nat), walkF k ((u, tn) :: s) tn = tn := by
    intro k
    cases htn : tn with
    | var w =>
      have hw : lookupSubst s w = none := by rw [htn] at hrtn; exact hrtn
      have hwv : w ≠ u := by
        intro hh
        rw [htn, hh] at hne
        exact hne rfl
      apply walkF_unbound
      show (if u = w then some (Term.var w) else lookupSubst s w) = none
      rw [if_neg (fun hh => hwv hh.symm), hw]
    | atom a => exact walkF_nonvar _ _ _ (fun w hw => Term.noConfusion hw)
    | compound f as => exact walkF_nonvar _ _ _ (fun w hw => Term.noConfusion hw)
    | list l => exact walkF_nonvar _ _ _ (fun w hw => Term.noConfusion hw)
  intro k
  induction k with
  | zero =>
    intro t h0
    cases t with
    | var v =>
      have hres_v : Resolved s (Term.var v) := by
        have := hres (Term.var v)
        rw [← h0] at this
        exact this
      have hlv : lookupSubst s v = none := hres_v
      by_cases hvu : v = u
      · subst hvu
        have e : lookupSubst ((v, tn) :: s) v = some tn := by
          show (if v = v then some tn else lookupSubst s v) = some tn
          rw [if_pos rfl]
        rw [walkF_succ_bound 0 _ v tn e, walk_unbound s v hlv, if_pos rfl]
        exact htn_fix 0
      · have e : lookupSubst ((u, tn) :: s) v = none := by
          show (if u = v then some tn else lookupSubst s v) = none
          rw [if_neg (fun hh => hvu hh.symm), hlv]
        rw [walkF_unbound _ _ v e, walk_unbound s v hlv,
          if_neg (fun hh => hvu (Term.var.inj hh))]
    | atom a => exact hnonvar 0 _ (fun w hw => Term.noConfusion hw)
    | compound f as => exact hnonvar 0 _ (fun w hw => Term.noConfusion hw)
    | list l => exact hnonvar 0 _ (fun w hw => Term.noConfusion hw)
  | succ k ih =>
    intro t h
    cases t with
    | var v =>
      by_cases hvu : v = u
      · subst hvu
        have e : lookupSubst ((v, tn) :: s) v = some tn := by
          show (if v = v then some tn else lookupSubst s v) = some tn
          rw [if_pos rfl]
        rw [walkF_succ_bound (Nat.succ k) _ v tn e, walk_unbound s v hu,
          if_pos rfl]
        exact htn_fix (Nat.succ k)
      · cases hl : lookupSubst s v with
        | none =>
          have e : lookupSubst ((u, tn) :: s) v = none := by
            show (if u = v then some tn else lookupSubst s v) = none
            rw [if_neg (fun hh => hvu hh.symm), hl]
          rw [walkF_unbound _ _ v e, walk_unbound s v hl,
            if_neg (fun hh => hvu (Term.var.inj hh))]
        | some t' =>
          have e : lookupSubst ((u, tn) :: s) v = some t' := by
            show (if u = v then some tn else lookupSubst s v) = some t'
            rw [if_neg (fun hh => hvu hh.symm), hl]
          rw [walkF_succ_bound (Nat.succ k) _ v t' e]
          have hstep : walkF (Nat.succ k) s (Term.var v) = walkF k s t' :=
            walkF_succ_bound k s v t' hl
          have hkt' : walkF k s t' = walk s (Term.var v) := by
            rw [← hstep]; exact h
          have h1 : walk s (Term.var v) = walkF s.length s t' :=
            walkF_succ_bound s.length s v t' hl
          have h2 : Resolved s (walkF s.length s t') := by
            rw [← h1]; exact hres (Term.var v)
          have hwt' : walk s t' = walk s (Term.var v) := by
            show walkF (s.length + 1) s t' = walk s (Term.var v)
            rw [walkF_stable_of_res s.length s t' h2]
            exact h1.symm
          have hure : walkF k s t' = walk s t' := by rw [hkt', hwt']
          rw [ih t' hure, hwt']
    | atom a => exact hnonvar _ _ (fun w hw => Term.noConfusion hw)
    | compound f as => exact hnonvar _ _ (fun w hw => Term.noConfusion hw)
    | list l => exact hnonvar _ _ (fun w hw => Term.noConfusion hw)

/-- The canonical-fuel `walk` after a fresh binding. -/
theorem walk_cons (s : Subst) (u : String) (tn : Term)
    (hres : ∀ t, Resolved s (walk s t)) (hu : lookupSubst s u = none)
    (hrtn : Resolved s tn) (hne : tn ≠ Term.var u) (t : Term) :
    walk ((u, tn) :: s) t = if walk s t = Term.var u then tn else walk s t :=
  walk_cons_aux s u tn hres hu hrtn hne (s.length + 1) t rfl

/-- On a well-formed substitution every walk result is var-resolved. -/
theorem WFS_resolved : ∀ {s : Subst}, WFS s → ∀ t, Resolved s (walk s t) := by
  intro s h
  induction h with
  | nil =>
    intro t
    cases t with
    | var v =>
      rw [walk_unbound [] v rfl]
      exact rfl
    | atom a => rw [walk_nonvar _ _ (fun w hw => Term.noConfusion hw)]; trivial
    | compound f as =>
      rw [walk_nonvar _ _ (fun w hw => Term.noConfusion hw)]; trivial
    | list l => rw [walk_nonvar _ _ (fun w hw => Term.noConfusion hw)]; trivial
  | cons u tn s' _ hu hrtn hne ih =>
    intro t
    rw [walk_cons s' u tn ih hu hrtn hne t]
    by_cases hc : walk s' t = Term.var u
    · rw [if_pos hc]
      cases htn : tn with
      | var w =>
        have hw : lookupSubst s' w = none := by rw [htn] at hrtn; exact hrtn
        have hwu : w ≠ u := by
          intro hh
          rw [htn, hh] at hne
          exact hne rfl
        show (if u = w then some (Term.var w) else lookupSubst s' w) = none
        rw [if_neg (fun hh => hwu hh.symm), hw]
      | atom a => trivial
      | compound f as => trivial
      | list l => trivial
    · rw [if_neg hc]
      cases hwt : walk s' t with
      | var x =>
        have hx : lookupSubst s' x = none := by
          have := ih t
          rw [hwt] at this
          exact this
        have hxu : x ≠ u := by
          intro hh
          rw [hh] at hwt
          exact hc hwt
        show (if u = x then some tn else lookupSubst s' x) = none
        rw [if_neg (fun hh => hxu hh.symm), hx]
      | atom a => trivial
      | compound f as => trivial
      | list l => trivial

/-! ### Mirror-simulation lemmas for the symmetry proof (C9) -/

/-- Unfolding of `MRel`. -/
theorem MRel_def (pi rho : String → String) (s1 s2 : Subst) (r1 r2 : Term) :
    MRel pi rho s1 s2 r1 r2 ↔
      ((∃ u1 u2, r1 = Term.var u1 ∧ r2 = Term.var u2 ∧ pi u1 = u2 ∧
        rho u2 = u1 ∧ lookupSubst s1 u1 = none ∧ lookupSubst s2 u2 = none) ∨
      (r1 = r2 ∧ ∀ w, r1 ≠ Term.var w)) := Iff.rfl

/-- The simulation invariant relates the walks of every term, not just
variables. -/
theorem Sim_MRel_total {pi rho : String → String} {s1 s2 : Subst}
    (h : Sim pi rho s1 s2) (t : Term) :
    MRel pi rho s1 s2 (walk s1 t) (walk s2 t) := by
  cases t with
  | var v => exact h.2.2 v
  | atom a =>
    rw [walk_nonvar s1 _ (fun w hw => Term.noConfusion hw),
      walk_nonvar s2 _ (fun w hw => Term.noConfusion hw)]
    exact Or.inr ⟨rfl, fun w hw => Term.noConfusion hw⟩
  | compound f as =>
    rw [walk_nonvar s1 _ (fun w hw => Term.noConfusion hw),
      walk_nonvar s2 _ (fun w hw => Term.noConfusion hw)]
    exact Or.inr ⟨rfl, fun w hw => Term.noConfusion hw⟩
  | list l =>
    rw [walk_nonvar s1 _ (fun w hw => Term.noConfusion hw),
      walk_nonvar s2 _ (fun w hw => Term.noConfusion hw)]
    exact Or.inr ⟨rfl, fun w hw => Term.noConfusion hw⟩

/-- Binding the mirrored unbound variables to the same var-resolved
non-variable term on both sides preserves the simulation invariant (the
variable-against-term arm of `unify` when the other side is not a
variable). -/
theorem Sim_insert_nonvar {pi rho : String → String} {s1 s2 : Subst}
    (h : Sim pi rho s1 s2) (u1 u2 : String) (t : Term)
    (hpi : pi u1 = u2) (hrho : rho u2 = u1)
    (hub1 : lookupSubst s1 u1 = none) (hub2 : lookupSubst s2 u2 = none)
    (hnv : ∀ w, t ≠ Term.var w)
    (hr1 : Resolved s1 t) (hr2 : Resolved s2 t) :
    Sim pi rho ((u1, t) :: s1) ((u2, t) :: s2) := by
  obtain ⟨hwf1, hwf2, hmr⟩ := h
  have hres1 := WFS_resolved hwf1
  have hres2 := WFS_resolved hwf2
  refine ⟨WFS.cons u1 t s1 hwf1 hub1 hr1 (hnv u1),
    WFS.cons u2 t s2 hwf2 hub2 hr2 (hnv u2), ?_⟩
  intro v
  rw [walk_cons s1 u1 t hres1 hub1 hr1 (hnv u1),
    walk_cons s2 u2 t hres2 hub2 hr2 (hnv u2)]
  rcases hmr v with ⟨x1, x2, e1, e2, hx, hx', hxub1, hxub2⟩ | ⟨heq, hnvv⟩
  · rw [e1, e2]
    by_cases hx1 : x1 = u1
    · have hx2 : x2 = u2 := by rw [← hx, hx1, hpi]
      rw [if_pos (by rw [hx1]), if_pos (by rw [hx2])]
      exact Or.inr ⟨rfl, hnv⟩
    · have hx2 : x2 ≠ u2 := fun hh => hx1 (by rw [← hx', hh, hrho])
      rw [if_neg (fun hh => hx1 (Term.var.inj hh)),
        if_neg (fun hh => hx2 (Term.var.inj hh))]
      refine Or.inl ⟨x1, x2, rfl, rfl, hx, hx', ?_, ?_⟩
      · show (if u1 = x1 then some t else lookupSubst s1 x1) = none
        rw [if_neg (fun hh => hx1 hh.symm), hxub1]
      · show (if u2 = x2 then some t else lookupSubst s2 x2) = none
        rw [if_neg (fun hh => hx2 hh.symm), hxub2]
  · have c1 : walk s1 (Term.var v) ≠ Term.var u1 := hnvv u1
    have c2 : walk s2 (Term.var v) ≠ Term.var u2 := by
      rw [← heq]; exact hnvv u2
    rw [if_neg c1, if_neg c2]
    exact Or.inr ⟨heq, hnvv⟩

/-- The mirrored variable-variable bindings (run 1 binds `u1 ↦ w1`, the
mirrored run binds `w2 ↦ u2`) preserve the simulation invariant, with the
variable bijection redirected accordingly. -/
theorem Sim_insert_var {pi rho : String → String} {s1 s2 : Subst}
    (h : Sim pi rho s1 s2) (u1 w1 u2 w2 : String)
    (hpu : pi u1 = u2) (hru : rho u2 = u1)
    (hpw : pi w1 = w2) (hrw : rho w2 = w1)
    (hu1 : lookupSubst s1 u1 = none) (hw1un : lookupSubst s1 w1 = none)
    (hu2 : lookupSubst s2 u2 = none) (hw2un : lookupSubst s2 w2 = none)
    (hne1 : u1 ≠ w1) (hne2 : u2 ≠ w2) :
    Sim (fun x => if x = w1 then u2 else pi x)
      (fun x => if x = u2 then w1 else rho x)
      ((u1, Term.var w1) :: s1) ((w2, Term.var u2) :: s2) := by
  obtain ⟨hwf1, hwf2, hmr⟩ := h
  have hres1 := WFS_resolved hwf1
  have hres2 := WFS_resolved hwf2
  have hrtn1 : Resolved s1 (Term.var w1) := hw1un
  have hrtn2 : Resolved s2 (Term.var u2) := hu2
  have hneq1 : Term.var w1 ≠ Term.var u1 :=
    fun hh => hne1 (Term.var.inj hh).symm
  have hneq2 : Term.var u2 ≠ Term.var w2 :=
    fun hh => hne2 (Term.var.inj hh)
  refine ⟨WFS.cons u1 (Term.var w1) s1 hwf1 hu1 hrtn1 hneq1,
    WFS.cons w2 (Term.var u2) s2 hwf2 hw2un hrtn2 hneq2, ?_⟩
  intro v
  rw [walk_cons s1 u1 (Term.var w1) hres1 hu1 hrtn1 hneq1,
    walk_cons s2 w2 (Term.var u2) hres2 hw2un hrtn2 hneq2]
  rcases hmr v with ⟨x1, x2, e1, e2, hx, hx', hxub1, hxub2⟩ | ⟨heq, hnvv⟩
  · rw [e1, e2]
    by_cases hx1u : x1 = u1
    · have hx2u : x2 = u2 := by rw [← hx, hx1u, hpu]
      rw [if_pos (by rw [hx1u]),
        if_neg (fun hh => hne2 (by rw [← hx2u]; exact Term.var.inj hh))]
      rw [hx2u]
      refine Or.inl ⟨w1, u2, rfl, rfl, ?_, ?_, ?_, ?_⟩
      · show (if w1 = w1 then u2 else pi w1) = u2
        rw [if_pos rfl]
      · show (if u2 = u2 then w1 else rho u2) = w1
        rw [if_pos rfl]
      · show (if u1 = w1 then some (Term.var w1) else lookupSubst s1 w1) = none
        rw [if_neg hne1, hw1un]
      · show (if w2 = u2 then some (Term.var u2) else lookupSubst s2 u2) = none
        rw [if_neg (fun hh => hne2 hh.symm), hu2]
    · by_cases hx1w : x1 = w1
      · have hx2w : x2 = w2 := by rw [← hx, hx1w, hpw]
        rw [if_neg (fun hh => hne1 (by rw [← hx1w]; exact (Term.var.inj hh).symm)),
          if_pos (by rw [hx2w])]
        rw [hx1w]
        refine Or.inl ⟨w1, u2, rfl, rfl, ?_, ?_, ?_, ?_⟩
        · show (if w1 = w1 then u2 else pi w1) = u2
          rw [if_pos rfl]
        · show (if u2 = u2 then w1 else rho u2) = w1
          rw [if_pos rfl]
        · show (if u1 = w1 then some (Term.var w1) else lookupSubst s1 w1) = none
          rw [if_neg hne1, hw1un]
        · show (if w2 = u2 then some (Term.var u2) else lookupSubst s2 u2) = none
          rw [if_neg (fun hh => hne2 hh.symm), hu2]
      · have hx2u : x2 ≠ u2 := fun hh => hx1u (by rw [← hx', hh, hru])
        have hx2w : x2 ≠ w2 := fun hh => hx1w (by rw [← hx', hh, hrw])
        rw [if_neg (fun hh => hx1u (Term.var.inj hh)),
          if_neg (fun hh => hx2w (Term.var.inj hh))]
        refine Or.inl ⟨x1, x2, rfl, rfl, ?_, ?_, ?_, ?_⟩
        · show (if x1 = w1 then u2 else pi x1) = x2
          rw [if_neg hx1w, hx]
        · show (if x2 = u2 then w1 else rho x2) = x1
          rw [if_neg hx2u, hx']
        · show (if u1 = x1 then some (Term.var w1) else lookupSubst s1 x1) = none
          rw [if_neg (fun hh => hx1u hh.symm), hxub1]
        · show (if w2 = x2 then some (Term.var u2) else lookupSubst s2 x2) = none
          rw [if_neg (fun hh => hx2w hh.symm), hxub2]
  · have c1 : walk s1 (Term.var v) ≠ Term.var u1 := hnvv u1
    have c2 : walk s2 (Term.var v) ≠ Term.var w2 := by
      rw [← heq]; exact hnvv w2
    rw [if_neg c1, if_neg c2]
    exact Or.inr ⟨heq, hnvv⟩

/-- One-step equation of the argument loop on a cons cell. -/
theorem unifyArgsWith_cons (u : Term → Term → Subst → URes) (a b : Term)
    (rest : List (Term × Term)) (s : Subst) :
    unifyArgsWith u ((a, b) :: rest) s =
      match u a b s with
      | URes.diverge => URes.diverge
      | URes.fail => URes.fail
      | URes.ok s' => unifyArgsWith u rest s' := rfl

/-- The argument loops of two mirrored runs (same pairs, swapped
component-wise) stay in lockstep: they diverge together, fail together, or
succeed with simulated substitutions. -/
theorem sim_unifyArgs (n : Nat)
    (hP : ∀ (t1 t2 : Term) (s1 s2 : Subst) (pi rho : String → String),
      Sim pi rho s1 s2 → SimRes (unifyF n t1 t2 s1) (unifyF n t2 t1 s2)) :
    ∀ (pairs : List (Term × Term)) (s1 s2 : Subst) (pi rho : String → String),
      Sim pi rho s1 s2 →
      SimRes (unifyArgsWith (unifyF n) pairs s1)
        (unifyArgsWith (unifyF n) (pairs.map Prod.swap) s2) := by
  intro pairs
  induction pairs with
  | nil =>
    intro s1 s2 pi rho h
    exact Or.inr (Or.inr ⟨s1, s2, pi, rho, rfl, rfl, h⟩)
  | cons p rest ih =>
    intro s1 s2 pi rho h
    obtain ⟨a, b⟩ := p
    simp only [List.map_cons, Prod.swap_prod_mk]
    rw [unifyArgsWith_cons, unifyArgsWith_cons]
    rcases hP a b s1 s2 pi rho h with ⟨h1, h2⟩ | hrest
    · rw [h1, h2]
      exact Or.inl ⟨rfl, rfl⟩
    rcases hrest with ⟨h1, h2⟩ | ⟨s1', s2', pi', rho', h1, h2, hsim⟩
    · rw [h1, h2]
      exact Or.inr (Or.inl ⟨rfl, rfl⟩)
    · rw [h1, h2]
      exact ih s1' s2' pi' rho' hsim

/-- The mirror simulation for `unify`: runs on swapped inputs over
simulated substitutions diverge together, fail together, or succeed
together with simulated results, at every fuel level. -/
theorem sim_unifyF :
    ∀ (n : Nat) (t1 t2 : Term) (s1 s2 : Subst) (pi rho : String → String),
      Sim pi rho s1 s2 → SimRes (unifyF n t1 t2 s1) (unifyF n t2 t1 s2) := by
  intro n
  induction n with
  | zero =>
    intro t1 t2 s1 s2 pi rho _
    exact Or.inl ⟨rfl, rfl⟩
  | succ n ih =>
    intro t1 t2 s1 s2 pi rho h
    rw [unifyF_succ, unifyF_succ]
    rcases Sim_MRel_total h t1 with
      ⟨u1, u2, ea1, ea2, hpu, hru, hub1a, hub2a⟩ | ⟨heqa, hnva⟩
    · rcases Sim_MRel_total h t2 with
        ⟨w1, w2, eb1, eb2, hpw, hrw, hub1b, hub2b⟩ | ⟨heqb, hnvb⟩
      · -- both sides walk to variables
        rw [ea1, ea2, eb1, eb2]
        show SimRes
          (if u1 = w1 then URes.ok s1 else URes.ok ((u1, Term.var w1) :: s1))
          (if w2 = u2 then URes.ok s2 else URes.ok ((w2, Term.var u2) :: s2))
        by_cases huw : u1 = w1
        · have h2 : w2 = u2 := by rw [← hpw, ← huw, hpu]
          rw [if_pos huw, if_pos h2]
          exact Or.inr (Or.inr ⟨s1, s2, pi, rho, rfl, rfl, h⟩)
        · have h2 : w2 ≠ u2 := fun hh => huw (by rw [← hru, ← hh, hrw])
          rw [if_neg huw, if_neg h2]
          exact Or.inr (Or.inr ⟨_, _, _, _, rfl, rfl,
            Sim_insert_var h u1 w1 u2 w2 hpu hru hpw hrw
              hub1a hub1b hub2a hub2b huw (fun hh => h2 hh.symm)⟩)
      · -- t1 walks to a variable, t2 walks to the same non-variable on
        -- both sides
        rw [ea1, ea2, ← heqb]
        cases htb : walk s1 t2 with
        | var w => exact absurd htb (hnvb w)
        | atom aa =>
          show SimRes (URes.ok ((u1, Term.atom aa) :: s1))
            (URes.ok ((u2, Term.atom aa) :: s2))
          refine Or.inr (Or.inr ⟨_, _, pi, rho, rfl, rfl,
            Sim_insert_nonvar h u1 u2 (Term.atom aa) hpu hru hub1a hub2a
              (fun w hw => Term.noConfusion hw) trivial trivial⟩)
        | compound f as =>
          show SimRes (URes.ok ((u1, Term.compound f as) :: s1))
            (URes.ok ((u2, Term.compound f as) :: s2))
          refine Or.inr (Or.inr ⟨_, _, pi, rho, rfl, rfl,
            Sim_insert_nonvar h u1 u2 (Term.compound f as) hpu hru hub1a hub2a
              (fun w hw => Term.noConfusion hw) trivial trivial⟩)
        | list l =>
          show SimRes (URes.ok ((u1, Term.list l) :: s1))
            (URes.ok ((u2, Term.list l) :: s2))
          refine Or.inr (Or.inr ⟨_, _, pi, rho, rfl, rfl,
            Sim_insert_nonvar h u1 u2 (Term.list l) hpu hru hub1a hub2a
              (fun w hw => Term.noConfusion hw) trivial trivial⟩)
    · rcases Sim_MRel_total h t2 with
        ⟨w1, w2, eb1, eb2, hpw, hrw, hub1b, hub2b⟩ | ⟨heqb, hnvb⟩
      · -- t1 walks to the same non-variable on both sides, t2 to a variable
        rw [eb1, eb2, ← heqa]
        cases hta : walk s1 t1 with
        | var w => exact absurd hta (hnva w)
        | atom aa =>
          show SimRes (URes.ok ((w1, Term.atom aa) :: s1))
            (URes.ok ((w2, Term.atom aa) :: s2))
          refine Or.inr (Or.inr ⟨_, _, pi, rho, rfl, rfl,
            Sim_insert_nonvar h w1 w2 (Term.atom aa) hpw hrw hub1b hub2b
              (fun w hw => Term.noConfusion hw) trivial trivial⟩)
        | compound f as =>
          show SimRes (URes.ok ((w1, Term.compound f as) :: s1))
            (URes.ok ((w2, Term.compound f as) :: s2))
          refine Or.inr (Or.inr ⟨_, _, pi, rho, rfl, rfl,
            Sim_insert_nonvar h w1 w2 (Term.compound f as) hpw hrw hub1b hub2b
              (fun w hw => Term.noConfusion hw) trivial trivial⟩)
        | list l =>
          show SimRes (URes.ok ((w1, Term.list l) :: s1))
            (URes.ok ((w2, Term.list l) :: s2))
          refine Or.inr (Or.inr ⟨_, _, pi, rho, rfl, rfl,
            Sim_insert_nonvar h w1 w2 (Term.list l) hpw hrw hub1b hub2b
              (fun w hw => Term.noConfusion hw) trivial trivial⟩)
      · -- both sides walk to the same non-variables
        rw [← heqa, ← heqb]
        cases hta : walk s1 t1 with
        | var w => exact absurd hta (hnva w)
        | atom a =>
          cases htb : walk s1 t2 with
          | var w => exact absurd htb (hnvb w)
          | atom b =>
            show SimRes (if a = b then URes.ok s1 else URes.fail)
              (if b = a then URes.ok s2 else URes.fail)
            by_cases hab : a = b
            · rw [if_pos hab, if_pos hab.symm]
              exact Or.inr (Or.inr ⟨s1, s2, pi, rho, rfl, rfl, h⟩)
            · rw [if_neg hab, if_neg (fun hh => hab hh.symm)]
              exact Or.inr (Or.inl ⟨rfl, rfl⟩)
          | compound g bs =>
            exact Or.inr (Or.inl ⟨rfl, rfl⟩)
          | list bs =>
            exact Or.inr (Or.inl ⟨rfl, rfl⟩)
        | compound f as =>
          cases htb : walk s1 t2 with
          | var w => exact absurd htb (hnvb w)
          | atom b => exact Or.inr (Or.inl ⟨rfl, rfl⟩)
          | compound g bs =>
            show SimRes
              (if f = g ∧ as.length = bs.length then
                unifyArgsWith (unifyF n) (as.zip bs) s1
              else URes.fail)
              (if g = f ∧ bs.length = as.length then
                unifyArgsWith (unifyF n) (bs.zip as) s2
              else URes.fail)
            by_cases hc : f = g ∧ as.length = bs.length
            · rw [if_pos hc, if_pos ⟨hc.1.symm, hc.2.symm⟩,
                (List.zip_swap as bs).symm]
              exact sim_unifyArgs n ih (as.zip bs) s1 s2 pi rho h
            · rw [if_neg hc, if_neg (fun hh => hc ⟨hh.1.symm, hh.2.symm⟩)]
              exact Or.inr (Or.inl ⟨rfl, rfl⟩)
          | list bs => exact Or.inr (Or.inl ⟨rfl, rfl⟩)
        | list l1 =>
          cases htb : walk s1 t2 with
          | var w => exact absurd htb (hnvb w)
          | atom b => exact Or.inr (Or.inl ⟨rfl, rfl⟩)
          | compound g bs => exact Or.inr (Or.inl ⟨rfl, rfl⟩)
          | list l2 =>
            show SimRes
              (if l1.length = l2.length then
                unifyArgsWith (unifyF n) (l1.zip l2) s1
              else URes.fail)
              (if l2.length = l1.length then
                unifyArgsWith (unifyF n) (l2.zip l1) s2
              else URes.fail)
            by_cases hc : l1.length = l2.length
            · rw [if_pos hc, if_pos hc.symm, (List.zip_swap l1 l2).symm]
              exact sim_unifyArgs n ih (l1.zip l2) s1 s2 pi rho h
            · rw [if_neg hc, if_neg (fun hh => hc hh.symm)]
              exact Or.inr (Or.inl ⟨rfl, rfl⟩)

/-- Claim C9: Unification is symmetric-safe: for all terms `A` and `B` and
every fuel level, `unify(A, B, ∅)` and `unify(B, A, ∅)` succeed together
(order-independence of success, with possibly different binding
directions), fail together, and run out of fuel (diverge) together. -/
theorem C9_unify_symmetric_success (n : Nat) (A B : Term) :
    ((∃ s, unifyF n A B [] = URes.ok s) ↔ (∃ s, unifyF n B A [] = URes.ok s)) ∧
    (unifyF n A B [] = URes.fail ↔ unifyF n B A [] = URes.fail) ∧
    (unifyF n A B [] = URes.diverge ↔ unifyF n B A [] = URes.diverge) := by
  have hsim : Sim id id [] [] := by
    refine ⟨WFS.nil, WFS.nil, fun v => Or.inl ⟨v, v, ?_, ?_, rfl, rfl, rfl, rfl⟩⟩
    · exact walk_unbound [] v rfl
    · exact walk_unbound [] v rfl
  rcases sim_unifyF n A B [] [] id id hsim with
    ⟨h1, h2⟩ | ⟨h1, h2⟩ | ⟨s1, s2, pi, rho, h1, h2, _⟩
  · rw [h1, h2]
    exact ⟨Iff.rfl, Iff.rfl, Iff.rfl⟩
  · rw [h1, h2]
    exact ⟨Iff.rfl, Iff.rfl, Iff.rfl⟩
  · rw [h1, h2]
    refine ⟨iff_of_true ⟨s1, rfl⟩ ⟨s2, rfl⟩, ?_, ?_⟩
    · exact iff_of_false (by simp) (by simp)
    · exact iff_of_false (by simp) (by simp)

end PSA
